import Mathlib

/-!
Shallow embedding of the client/server IPC channel of pyqode.core
(file `pyqode/core/api/client.py`): the length-prefixed JSON framing
codec, the incremental header/payload state machine of `JsonTcpClient`,
its socket-error handling, and the `ServerProcess` supervisor helpers.

Byte strings and Python text strings are both modelled as `List Nat`
(bytes, respectively Unicode code points).
-/

/-- Code points of a string literal (helper for concrete statements). -/
def txt (s : String) : List Nat := s.data.map Char.toNat

/-- `struct.pack('=I', n)`: the four little-endian bytes of `n` (the
native byte order of the x86 platforms the code targets). `struct.error`
for `n ≥ 2^32` is modelled by callers guarding on the length. -/
def pack4 (n : Nat) : List Nat :=
  [n % 256, n / 256 % 256, n / 65536 % 256, n / 16777216 % 256]

/-- `struct.unpack('=I', b)[0]` on a four-byte buffer. -/
def unpack4 (b : List Nat) : Nat :=
  match b with
  | [b0, b1, b2, b3] => b0 + 256 * b1 + 65536 * b2 + 16777216 * b3
  | _ => 0

/-- Python JSON values, restricted to `int` numbers (floats are outside
the model); strings are lists of Unicode code points. -/
inductive JValue where
  | null
  | bool (b : Bool)
  | num (n : Int)
  | str (s : List Nat)
  | arr (elems : List JValue)
  | obj (members : List (List Nat × JValue))

/-- Worker for `natToDec`, structural on a fuel that the wrapper
instantiates large enough (`n` itself) for the division chain. -/
def natToDecAux : Nat → Nat → List Nat
  | 0, n => [48 + n % 10]
  | fuel + 1, n =>
      if n < 10 then [48 + n]
      else natToDecAux fuel (n / 10) ++ [48 + n % 10]

/-- Decimal digit code points of a natural number, as `str(n)`. -/
def natToDec (n : Nat) : List Nat := natToDecAux n n

/-- `str(i)` for a Python `int`: optional minus sign, then digits. -/
def intToDec (i : Int) : List Nat :=
  if i < 0 then 45 :: natToDec i.natAbs else natToDec i.natAbs

/-- Lowercase hex digit code point of `d < 16` (as `'%04x' % n` uses). -/
def hexDigitCode (d : Nat) : Nat := if d < 10 then 48 + d else 87 + d

/-- The four hex digit code points of `n < 0x10000`, as in `\uXXXX`. -/
def hexQuad (n : Nat) : List Nat :=
  [hexDigitCode (n / 4096 % 16), hexDigitCode (n / 256 % 16),
   hexDigitCode (n / 16 % 16), hexDigitCode (n % 16)]

/-- `json.dumps` escaping of one code point under `ensure_ascii=True`
(CPython `py_encode_basestring_ascii`): two-character escapes for the
quote, backslash and the five control shorthands; every other code point
outside `0x20..0x7E` as `\uXXXX`; astral code points as a UTF-16
surrogate pair. -/
def escapeCode (c : Nat) : List Nat :=
  if c = 34 then [92, 34]
  else if c = 92 then [92, 92]
  else if c = 8 then [92, 98]
  else if c = 9 then [92, 116]
  else if c = 10 then [92, 110]
  else if c = 12 then [92, 102]
  else if c = 13 then [92, 114]
  else if 32 ≤ c ∧ c ≤ 126 then [c]
  else if c < 65536 then 92 :: 117 :: hexQuad c
  else
    (92 :: 117 :: hexQuad (55296 + (c - 65536) / 1024)) ++
      (92 :: 117 :: hexQuad (56320 + (c - 65536) % 1024))

/-- `ensure_ascii` escaping of a whole string body. -/
def escapeString : List Nat → List Nat
  | [] => []
  | c :: cs => escapeCode c ++ escapeString cs

mutual
/-- `json.dumps(v)` with default arguments (separators `', '` and
`': '`, `ensure_ascii=True`), as a list of ASCII code points. -/
def dumps : JValue → List Nat
  | .null => [110, 117, 108, 108]
  | .bool true => [116, 114, 117, 101]
  | .bool false => [102, 97, 108, 115, 101]
  | .num i => intToDec i
  | .str s => 34 :: (escapeString s ++ [34])
  | .arr xs => 91 :: (dumpsElems xs ++ [93])
  | .obj kvs => 123 :: (dumpsMembers kvs ++ [125])

/-- `', '.join` of the serialized array elements. -/
def dumpsElems : List JValue → List Nat
  | [] => []
  | [x] => dumps x
  | x :: y :: xs => dumps x ++ (44 :: 32 :: dumpsElems (y :: xs))

/-- `', '.join` of the serialized `"key": value` object members. -/
def dumpsMembers : List (List Nat × JValue) → List Nat
  | [] => []
  | [(k, v)] => 34 :: (escapeString k ++ (34 :: 58 :: 32 :: dumps v))
  | (k, v) :: m :: kvs =>
      34 :: (escapeString k ++ (34 :: 58 :: 32 :: (dumps v ++
        (44 :: 32 :: dumpsMembers (m :: kvs)))))
end

/-- A Unicode scalar value: a code point that is not a UTF-16 surrogate
and is in range (exactly the text `str.encode('utf-8')` accepts). -/
def isScalar (c : Nat) : Bool := decide (c < 55296 ∨ (57344 ≤ c ∧ c < 1114112))

/-- Every code point of the string is a scalar value. -/
def wfString (s : List Nat) : Bool := s.all isScalar

mutual
/-- Well-formed JSON value: every string and key is scalar-valued text. -/
def wfJ : JValue → Bool
  | .null => true
  | .bool _ => true
  | .num _ => true
  | .str s => wfString s
  | .arr xs => wfJList xs
  | .obj kvs => wfJMembers kvs

def wfJList : List JValue → Bool
  | [] => true
  | x :: xs => wfJ x && wfJList xs

def wfJMembers : List (List Nat × JValue) → Bool
  | [] => true
  | (k, v) :: kvs => wfString k && wfJ v && wfJMembers kvs
end

mutual
/-- Fuel cost of parsing a value: one unit per parser call made on the
output of `dumps` (see the round-trip lemmas). -/
def jsize : JValue → Nat
  | .null => 1
  | .bool _ => 1
  | .num _ => 1
  | .str _ => 1
  | .arr xs => 1 + jsizeList xs
  | .obj kvs => 1 + jsizeMembers kvs

def jsizeList : List JValue → Nat
  | [] => 0
  | x :: xs => 1 + jsize x + jsizeList xs

def jsizeMembers : List (List Nat × JValue) → Nat
  | [] => 0
  | (_, v) :: kvs => 1 + jsize v + jsizeMembers kvs
end

/-- UTF-8 encoding of one code point; `none` on surrogates and
out-of-range code points, where Python `str.encode('utf-8')` raises. -/
def utf8EncodeCode (c : Nat) : Option (List Nat) :=
  if c < 128 then some [c]
  else if c < 2048 then some [192 + c / 64, 128 + c % 64]
  else if c < 65536 then
    if 55296 ≤ c ∧ c < 57344 then none
    else some [224 + c / 4096, 128 + c / 64 % 64, 128 + c % 64]
  else if c < 1114112 then
    some [240 + c / 262144, 128 + c / 4096 % 64, 128 + c / 64 % 64, 128 + c % 64]
  else none

/-- `str.encode('utf-8')` over a list of code points. -/
def utf8Encode : List Nat → Option (List Nat)
  | [] => some []
  | c :: cs =>
    match utf8EncodeCode c, utf8Encode cs with
    | some b, some bs => some (b ++ bs)
    | _, _ => none

/-- A UTF-8 continuation byte. -/
def isCont (b : Nat) : Bool := decide (128 ≤ b ∧ b < 192)

/-- Decode one UTF-8 sequence from the head of the buffer, strictly
(rejecting stray continuation bytes, overlong encodings, surrogates and
out-of-range sequences): the code point and the remaining bytes. -/
def utf8DecodeStep (b : Nat) (bs : List Nat) : Option (Nat × List Nat) :=
  if b < 128 then some (b, bs)
  else if b < 194 then none
  else if b < 224 then
    match bs with
    | b1 :: rest =>
      if isCont b1 then some ((b - 192) * 64 + (b1 - 128), rest) else none
    | _ => none
  else if b < 240 then
    match bs with
    | b1 :: b2 :: rest =>
      if isCont b1 && isCont b2 then
        let c := (b - 224) * 4096 + (b1 - 128) * 64 + (b2 - 128)
        if 2048 ≤ c ∧ ¬(55296 ≤ c ∧ c < 57344) then some (c, rest) else none
      else none
    | _ => none
  else if b < 245 then
    match bs with
    | b1 :: b2 :: b3 :: rest =>
      if isCont b1 && isCont b2 && isCont b3 then
        let c := (b - 240) * 262144 + (b1 - 128) * 4096 + (b2 - 128) * 64 + (b3 - 128)
        if 65536 ≤ c ∧ c < 1114112 then some (c, rest) else none
      else none
    | _ => none
  else none

/-- Decoding loop, structural on a fuel that every at-least-one-byte
step keeps from exhausting when sized to the input length plus one. -/
def utf8DecodeF : Nat → List Nat → Option (List Nat)
  | _, [] => some []
  | 0, _ :: _ => none
  | fuel + 1, b :: bs =>
    match utf8DecodeStep b bs with
    | some (c, rest) => (utf8DecodeF fuel rest).map (c :: ·)
    | none => none

/-- Strict UTF-8 decoding of a byte string, as `bytes.decode('utf-8')`
(`none` models the UnicodeDecodeError). -/
def utf8Decode (s : List Nat) : Option (List Nat) :=
  utf8DecodeF (s.length + 1) s

/-- JSON whitespace, the `[ \t\n\r]*` class of `json.decoder.WHITESPACE`. -/
def isJsonWs (c : Nat) : Bool := c == 32 || c == 9 || c == 10 || c == 13

def skipWs : List Nat → List Nat
  | [] => []
  | c :: cs => if isJsonWs c then skipWs cs else c :: cs

def isDigitCode (c : Nat) : Bool := decide (48 ≤ c ∧ c ≤ 57)

/-- Value of one hex digit code point, as in `\uXXXX` escapes. -/
def hexVal (c : Nat) : Option Nat :=
  if 48 ≤ c ∧ c ≤ 57 then some (c - 48)
  else if 97 ≤ c ∧ c ≤ 102 then some (c - 87)
  else if 65 ≤ c ∧ c ≤ 70 then some (c - 55)
  else none

/-- Four hex digits, as in the body of a `\\uXXXX` escape
(`_decode_uXXXX` in CPython json): the value and the remaining input. -/
def parseHexQuad : List Nat → Option (Nat × List Nat)
  | h1 :: h2 :: h3 :: h4 :: rest =>
    match hexVal h1, hexVal h2, hexVal h3, hexVal h4 with
    | some d1, some d2, some d3, some d4 =>
      some (4096 * d1 + 256 * d2 + 16 * d3 + d4, rest)
    | _, _, _, _ => none
  | _ => none

/-- One backslash escape after the backslash (CPython `scanstring`):
the short escapes, and `\\uXXXX` with surrogate-pair combination — a
high surrogate whose next characters are a `\\u`-escaped low surrogate
becomes one astral code point consuming both escapes; a high surrogate
followed by a `\\u` escape of anything else stands alone, leaving the
second escape unconsumed; bad hex digits are an error. Returns the
decoded code point and the remaining input. -/
def parseEscape (cs : List Nat) : Option (Nat × List Nat) :=
  match cs with
  | [] => none
  | e :: cs2 =>
    if e = 34 then some (34, cs2)
    else if e = 92 then some (92, cs2)
    else if e = 47 then some (47, cs2)
    else if e = 98 then some (8, cs2)
    else if e = 102 then some (12, cs2)
    else if e = 110 then some (10, cs2)
    else if e = 114 then some (13, cs2)
    else if e = 116 then some (9, cs2)
    else if e = 117 then
      match parseHexQuad cs2 with
      | none => none
      | some (u, rest) =>
        if 55296 ≤ u ∧ u ≤ 56319 then
          match rest with
          | 92 :: 117 :: rest2 =>
            match parseHexQuad rest2 with
            | none => none
            | some (u2, rest3) =>
              if 56320 ≤ u2 ∧ u2 ≤ 57343 then
                some (65536 + 1024 * (u - 55296) + (u2 - 56320), rest3)
              else some (u, rest)
          | _ => some (u, rest)
        else some (u, rest)
    else none

def parseStringBodyF : Nat → List Nat → Option (List Nat × List Nat)
  | _, [] => none
  | 0, _ :: _ => none
  | fuel + 1, c :: cs =>
    if c = 34 then some ([], cs)
    else if c = 92 then
      match parseEscape cs with
      | some (u, rest) => (parseStringBodyF fuel rest).map (fun r => (u :: r.1, r.2))
      | none => none
    else if c < 32 then none
    else (parseStringBodyF fuel cs).map (fun r => (c :: r.1, r.2))

/-- `scanstring` entry point: the fuel is the input length plus one,
which the at-least-one-character consumption per step never exhausts. -/
def parseStringBody (s : List Nat) : Option (List Nat × List Nat) :=
  parseStringBodyF (s.length + 1) s

/-- Maximal digit run, folded into the accumulator. -/
def digitsRun (acc : Nat) : List Nat → Nat × List Nat
  | [] => (acc, [])
  | c :: cs =>
    if isDigitCode c then digitsRun (acc * 10 + (c - 48)) cs else (acc, c :: cs)

/-- A following `.`, `e` or `E` would extend the match to a float. -/
def floatFollow : List Nat → Bool
  | [] => false
  | c :: _ => c == 46 || c == 101 || c == 69

/-- Unsigned integer part of CPython `NUMBER_RE`: `0`, or a nonzero
digit followed by a maximal digit run. -/
def parseUInt : List Nat → Option (Nat × List Nat)
  | [] => none
  | c :: cs =>
    if c = 48 then some (0, cs)
    else if 49 ≤ c ∧ c ≤ 57 then some (digitsRun (c - 48) cs)
    else none

/-- Number parse restricted to the `int` fragment: optional minus sign
then the integer part; a float continuation (fraction or exponent) is
outside the model and rejected. -/
def parseNumber (s : List Nat) : Option (JValue × List Nat) :=
  match s with
  | [] => none
  | c :: rest =>
    if c = 45 then
      match parseUInt rest with
      | some (n, r) => if floatFollow r then none else some (.num (-(n : Int)), r)
      | none => none
    else
      match parseUInt (c :: rest) with
      | some (n, r) => if floatFollow r then none else some (.num (n : Int), r)
      | none => none

mutual
/-- One JSON value (CPython `scan_once`): dispatch on the first
character; `n`/`t`/`f` must spell their keyword; everything else is
tried as a number. Recursion is structural on the fuel, which `loads`
sizes from the input. -/
def parseValue : Nat → List Nat → Option (JValue × List Nat)
  | 0, _ => none
  | fuel + 1, s =>
    match s with
    | [] => none
    | c :: cs =>
      if c = 123 then (parseMembers fuel (skipWs cs)).map (fun r => (.obj r.1, r.2))
      else if c = 91 then (parseElems fuel (skipWs cs)).map (fun r => (.arr r.1, r.2))
      else if c = 34 then (parseStringBody cs).map (fun r => (.str r.1, r.2))
      else if c = 110 then
        match cs with
        | 117 :: 108 :: 108 :: rest => some (.null, rest)
        | _ => none
      else if c = 116 then
        match cs with
        | 114 :: 117 :: 101 :: rest => some (.bool true, rest)
        | _ => none
      else if c = 102 then
        match cs with
        | 97 :: 108 :: 115 :: 101 :: rest => some (.bool false, rest)
        | _ => none
      else parseNumber (c :: cs)

/-- Array tail (CPython `JSONArray`), entered after `[` with whitespace
skipped: `]`, or comma-separated values with no trailing comma. -/
def parseElems : Nat → List Nat → Option (List JValue × List Nat)
  | 0, _ => none
  | fuel + 1, s =>
    match s with
    | [] => none
    | c :: cs =>
      if c = 93 then some ([], cs)
      else
        match parseValue fuel (c :: cs) with
        | none => none
        | some (v, r1) =>
          match skipWs r1 with
          | [] => none
          | d :: r2 =>
            if d = 44 then
              match skipWs r2 with
              | [] => none
              | e :: r3 =>
                if e = 93 then none
                else
                  match parseElems fuel (e :: r3) with
                  | some (vs, r4) => some (v :: vs, r4)
                  | none => none
            else if d = 93 then some ([v], r2)
            else none

/-- Object tail (CPython `JSONObject`), entered after `\x7b` with
whitespace skipped: `\x7d`, or comma-separated `"key": value` members;
after a comma the next member must again start with a quote. -/
def parseMembers : Nat → List Nat → Option (List (List Nat × JValue) × List Nat)
  | 0, _ => none
  | fuel + 1, s =>
    match s with
    | [] => none
    | c :: cs =>
      if c = 125 then some ([], cs)
      else if c = 34 then
        match parseStringBody cs with
        | none => none
        | some (k, r1) =>
          match skipWs r1 with
          | [] => none
          | d :: r2 =>
            if d = 58 then
              match parseValue fuel (skipWs r2) with
              | none => none
              | some (v, r3) =>
                match skipWs r3 with
                | [] => none
                | e :: r4 =>
                  if e = 44 then
                    match skipWs r4 with
                    | [] => none
                    | f2 :: r5 =>
                      if f2 = 34 then
                        match parseMembers fuel (f2 :: r5) with
                        | some (kvs, r6) => some ((k, v) :: kvs, r6)
                        | none => none
                      else none
                  else if e = 125 then some ([(k, v)], r4)
                  else none
            else none
      else none
end

/-- `json.loads` (on code points, int fragment): skip leading
whitespace, parse one value, and require only whitespace to follow.
The fuel strictly exceeds the parser-call count of anything it can
accept, because every value node consumes at least one character. -/
def loads (s : List Nat) : Option JValue :=
  match parseValue ((skipWs s).length + 1) (skipWs s) with
  | some (v, rest) => if (skipWs rest).isEmpty then some v else none
  | none => none

/-- A remainder that cannot extend a parsed integer: empty, or headed
by a character that is no digit and none of `.`, `e`, `E`. Every
delimiter `dumps` can emit after a number qualifies. -/
def numBoundary : List Nat → Bool
  | [] => true
  | c :: _ => !(isDigitCode c || c == 46 || c == 101 || c == 69)

/-- The buffering attributes of `JsonTcpClient`: `_header_complete`,
`_header_buf`, `_to_read` and `_data_buf` (initialized by `__init__`). -/
structure ConnState where
  headerComplete : Bool
  headerBuf : List Nat
  toRead : Nat
  dataBuf : List Nat
  deriving DecidableEq

/-- The state set up by `JsonTcpClient.__init__`. -/
def initConnState : ConnState := ⟨false, [], 0, []⟩

/-- Exceptions the payload completion can raise out of the read slot. -/
inductive JExn where
  | unicodeDecodeError
  | jsonDecodeError
  | keyError
  | typeError
  deriving DecidableEq

/-- Externally observable actions of the read handler: the user callback
`callback(status, results)` and the `finished` signal emission. -/
inductive ConnEvent where
  | callback (status : JValue) (results : JValue)
  | finishedSig

/-- Python `obj[key]` on a decoded JSON value: dictionary lookup (the
last duplicate key wins, as when the parser builds the dict), `KeyError`
when the key is missing, `TypeError` when `obj` is not an object. -/
def dictGet : JValue → List Nat → Except JExn JValue
  | .obj kvs, k =>
    match kvs.reverse.find? (fun kv => kv.1 == k) with
    | some kv => .ok kv.2
    | none => .error .keyError
  | _, _ => .error .typeError

/-- Result of one read-handler step or of a whole drain: the connection
state, the bytes still buffered in the socket, the emitted events, and
the exception that escaped the handler, if any. -/
structure DrainOut where
  state : ConnState
  rest : List Nat
  events : List ConnEvent
  exn : Option JExn

/-- One iteration of the `_on_ready_read` loop: `_read_header` while the
header is incomplete, else `_read_payload`. `read(n)` returns up to `n`
buffered bytes — in particular `_read_header` always asks for four
fresh bytes, regardless of how many are already in `_header_buf`.
Mutations made before an exception escapes persist. -/
def stepOnce (st : ConnState) (buf : List Nat) : DrainOut :=
  if st.headerComplete = false then
    let hb := st.headerBuf ++ buf.take 4
    if hb.length = 4 then
      ⟨{ st with headerComplete := true, toRead := unpack4 hb, headerBuf := [] },
        buf.drop 4, [], none⟩
    else
      ⟨{ st with headerBuf := hb }, buf.drop 4, [], none⟩
  else
    let chunk := buf.take st.toRead
    let db := st.dataBuf ++ chunk
    let tr := st.toRead - chunk.length
    let st1 : ConnState := { st with dataBuf := db, toRead := tr }
    let rest := buf.drop st.toRead
    if tr = 0 then
      match utf8Decode db with
      | none => ⟨st1, rest, [], some .unicodeDecodeError⟩
      | some codes =>
        match loads codes with
        | none => ⟨st1, rest, [], some .jsonDecodeError⟩
        | some obj =>
          match dictGet obj (txt "results") with
          | .error e => ⟨st1, rest, [], some e⟩
          | .ok results =>
            match dictGet obj (txt "status") with
            | .error e => ⟨st1, rest, [], some e⟩
            | .ok status =>
              ⟨{ st1 with headerComplete := false, dataBuf := [] }, rest,
                [.callback status results, .finishedSig], none⟩
    else ⟨st1, rest, [], none⟩

/-- Termination measure of the `_on_ready_read` loop: a step either
consumes buffered bytes or completes a message, clearing
`_header_complete`. -/
def drainMeasure (st : ConnState) (buf : List Nat) : Nat :=
  2 * buf.length + (if st.headerComplete then 1 else 0)

/-- The `while self.bytesAvailable():` loop of `_on_ready_read`,
structural on a fuel the wrapper sizes above the measure; an escaping
exception ends the loop early. -/
def drainFuel : Nat → ConnState → List Nat → DrainOut
  | 0, st, buf => ⟨st, buf, [], none⟩
  | fuel + 1, st, buf =>
    match buf with
    | [] => ⟨st, [], [], none⟩
    | b :: bs =>
      let r := stepOnce st (b :: bs)
      match r.exn with
      | some e => ⟨r.state, r.rest, r.events, some e⟩
      | none =>
        let d := drainFuel fuel r.state r.rest
        ⟨d.state, d.rest, r.events ++ d.events, d.exn⟩

/-- `_on_ready_read`: drain all currently buffered bytes. The fuel
strictly exceeds `drainMeasure`, which every iteration decreases. -/
def drain (st : ConnState) (buf : List Nat) : DrainOut :=
  drainFuel (2 * buf.length + 2) st buf

/-- A connection run across successive socket deliveries: current state,
bytes left unread in the socket buffer, and everything observed so far. -/
structure ConnRun where
  state : ConnState
  leftover : List Nat
  events : List ConnEvent
  exns : List JExn

def initConnRun : ConnRun := ⟨initConnState, [], [], []⟩

/-- Deliver one chunk: the handler runs over the previously unread bytes
plus the new ones, appending whatever it emits. -/
def feedChunk (c : ConnRun) (chunk : List Nat) : ConnRun :=
  let r := drain c.state (c.leftover ++ chunk)
  ⟨r.state, r.rest, c.events ++ r.events, c.exns ++ r.exn.toList⟩

/-- Run a fresh connection over a list of delivered chunks. -/
def runConn (chunks : List (List Nat)) : ConnRun :=
  chunks.foldl feedChunk initConnRun

/-- Two independent connections served by one event loop: a schedule
interleaves chunk deliveries, `true` entries for the first connection. -/
def runTwo (sched : List (Bool × List Nat)) : ConnRun × ConnRun :=
  sched.foldl
    (fun p s => if s.1 then (feedChunk p.1 s.2, p.2) else (p.1, feedChunk p.2 s.2))
    (initConnRun, initConnRun)

/-- The chunks a delivery schedule sends to one of the two connections. -/
def chunksFor (b : Bool) (sched : List (Bool × List Nat)) : List (List Nat) :=
  (sched.filter (fun s => s.1 == b)).map Prod.snd

/-- A concrete response envelope, `\x7b"status": true, "results": null\x7d`. -/
def sampleResp : JValue := .obj [(txt "status", .bool true), (txt "results", .null)]

/-- The encoded frame carrying `sampleResp`. -/
def sampleMsg : List Nat := pack4 (dumps sampleResp).length ++ dumps sampleResp

/-- `JsonTcpClient.send` from the payload bytes on: prefix the packed
length (`struct.error` on a payload of 4 GiB or more). -/
def sendFrame (msg : List Nat) : Option (List Nat) :=
  if msg.length < 4294967296 then some (pack4 msg.length ++ msg) else none

/-- `JsonTcpClient.send obj`: `json.dumps`, UTF-8 encode, frame. -/
def encodeMessage (v : JValue) : Option (List Nat) :=
  match utf8Encode (dumps v) with
  | none => none
  | some m => sendFrame m

/-- The decode path of `_read_header` / `_read_payload` applied to one
fully delivered message: parse the length from the first four bytes,
take that many payload bytes, UTF-8 decode, JSON parse. -/
def decodeMessage (bs : List Nat) : Option JValue :=
  if bs.length < 4 then none
  else
    let n := unpack4 (bs.take 4)
    if (bs.drop 4).length < n then none
    else
      match utf8Decode ((bs.drop 4).take n) with
      | none => none
      | some codes => loads codes

/-- `SOCKET_ERROR_STRINGS`: socket error messages keyed by the Qt error
code; `-1` holds the unidentified-error entry. -/
def socketErrorStrings (e : Int) : Option String :=
  if e = 0 then some "the connection was refused by the peer (or timed out)."
  else if e = 1 then some "the remote host closed the connection."
  else if e = 2 then some "the host address was not found."
  else if e = 3 then
    some "the socket operation failed because the application lacked the required privileges."
  else if e = 4 then some "the local system ran out of resources (e.g., too many sockets)."
  else if e = 5 then some "the socket operation timed out."
  else if e = 6 then
    some "the datagram was larger than the limit of the operating system (which can be as low as 8192 bytes)."
  else if e = 7 then
    some "an error occurred with the network (e.g., the network cable was accidentally plugged out)."
  else if e = -1 then some "an unidentified error occurred."
  else none

/-- The normalization in `_on_error`: a code outside the table becomes
the `-1` sentinel before the message lookup. -/
def normalizeSocketError (e : Int) : Int :=
  if (socketErrorStrings e).isSome then e else -1

/-- `JsonTcpClient._on_error`: log the table message for the normalized
code, and schedule `_connect` again after 100 ms exactly when the error
is code 0, connection refused. Returns the logged message and the retry
delay, `none` in the outer option modelling a failed lookup. -/
def onSocketError (e : Int) : Option (String × Option Nat) :=
  match socketErrorStrings (normalizeSocketError e) with
  | none => none
  | some msg => some (msg, if e = 0 then some 100 else none)

/-- `PROCESS_ERROR_STRING`: process error messages; note there is no
`-1` entry. -/
def processErrorStrings (e : Int) : Option String :=
  if e = 0 then
    some "the process failed to start. Either the invoked program is missing, or you may have insufficient permissions to invoke the program."
  else if e = 1 then some "the process crashed some time after starting successfully."
  else if e = 2 then
    some "the last waitFor...() function timed out. The state of QProcess is unchanged, and you can try calling waitFor...() again."
  else if e = 4 then
    some "an error occurred when attempting to write to the process. For example, the process may not be running, or it may have closed its input channel."
  else if e = 3 then
    some "an error occurred when attempting to read from the process. For example, the process may not be running."
  else if e = 5 then
    some "an unknown error occurred. This is the default return value of error()."
  else none

/-- The lifecycle flags of `ServerProcess`: `running` and `starting`. -/
structure ServerProcessState where
  running : Bool
  starting : Bool
  deriving DecidableEq

/-- Flags set by `ServerProcess.__init__`. -/
def initServerProcessState : ServerProcessState := ⟨false, true⟩

/-- `_on_process_started`: the process reported alive. -/
def onProcessStarted (st : ServerProcessState) : ServerProcessState :=
  { st with starting := false, running := true }

/-- `_on_process_finished(exit_code)`: log the exit code and clear
`running`. The pair's second component is the exit code the `finished`
notification carries to every connected observer. -/
def onProcessFinished (st : ServerProcessState) (exitCode : Int) :
    ServerProcessState × Int :=
  ({ st with running := false }, exitCode)

/-- Modelled from the spec: the Backend Manager (class `BackendManager`
of `pyqode/core/managers/backend.py`, which is not among the sources
here) subscribes to the process-finished notification so it can fail
out in-flight requests; receipt hands it exactly the exit code the
notification recorded. -/
def backendManagerSeesExit (notification : ServerProcessState × Int) : Int :=
  notification.2

/-- `_on_process_error`: normalize unknown codes to `-1`, then log the
table entry, but only when `running` is set. The nested option is the
table lookup, whose failure (there is no `-1` entry) is a KeyError. -/
def onProcessError (st : ServerProcessState) (e : Int) : Option (Option String) :=
  let e2 := if (processErrorStrings e).isSome then e else -1
  if st.running then some (processErrorStrings e2) else none

/-- Python `s.rfind(c)`: index of the last occurrence, `-1` if absent. -/
def pyRFind (s : List Nat) (c : Nat) : Int :=
  match s.reverse.findIdx? (· == c) with
  | some k => ((s.length - 1 - k : Nat) : Int)
  | none => -1

/-- Python `s[:i]` with a possibly negative `i`. -/
def pySliceTo (s : List Nat) (i : Int) : List Nat :=
  if 0 ≤ i then s.take i.toNat else s.take (s.length - (-i).toNat)

/-- Python `str.splitlines` boundaries. -/
def isLineBreak (c : Nat) : Bool :=
  c == 10 || c == 13 || c == 11 || c == 12 || c == 28 || c == 29 || c == 30 ||
    c == 133 || c == 8232 || c == 8233

/-- Python `str.splitlines`: `\r\n` counts as one boundary; a trailing
boundary does not produce a final empty line. -/
def splitlines : List Nat → List (List Nat)
  | [] => []
  | 13 :: 10 :: cs => [] :: splitlines cs
  | c :: cs =>
    if isLineBreak c then [] :: splitlines cs
    else
      match splitlines cs with
      | [] => [[c]]
      | l :: ls => (c :: l) :: ls

/-- `_on_process_stdout_ready` / `_on_process_stderr_ready` after the
UTF-8 decode: truncate the decoded chunk at the last newline with
`output[:output.rfind(chr(10))]`, then log each `splitlines` line. -/
def processOutputLines (output : List Nat) : List (List Nat) :=
  splitlines (pySliceTo output (pyRFind output 10))

/-! ### Framing arithmetic -/

theorem pack4_length (n : Nat) : (pack4 n).length = 4 := rfl

theorem unpack4_pack4 (n : Nat) (h : n < 4294967296) : unpack4 (pack4 n) = n := by
  simp only [pack4, unpack4]
  omega

/-! ### ASCII and UTF-8 -/

theorem utf8Encode_ascii : ∀ s : List Nat, (∀ c ∈ s, c < 128) → utf8Encode s = some s := by
  intro s
  induction s with
  | nil => intro _; rfl
  | cons c cs ih =>
    intro h
    have hc : c < 128 := h c (List.mem_cons_self ..)
    simp [utf8Encode, utf8EncodeCode, if_pos hc, ih fun x hx => h x (List.mem_cons_of_mem _ hx)]

theorem utf8DecodeF_ascii :
    ∀ (s : List Nat) (fuel : Nat), s.length < fuel → (∀ c ∈ s, c < 128) →
      utf8DecodeF fuel s = some s := by
  intro s
  induction s with
  | nil => intro fuel _ _; cases fuel <;> rfl
  | cons c cs ih =>
    intro fuel hfuel h
    have hc : c < 128 := h c (List.mem_cons_self ..)
    obtain ⟨f, rfl⟩ : ∃ f, fuel = f + 1 := ⟨fuel - 1, by omega⟩
    have hcs := ih f (by simp at hfuel; omega) fun x hx => h x (List.mem_cons_of_mem _ hx)
    simp [utf8DecodeF, utf8DecodeStep, if_pos hc, hcs]

theorem utf8Decode_ascii (s : List Nat) (h : ∀ c ∈ s, c < 128) : utf8Decode s = some s :=
  utf8DecodeF_ascii s (s.length + 1) (by omega) h

/-! ### Decimal rendering -/

theorem natToDecAux_congr : ∀ f g n : Nat, n ≤ f → n ≤ g → natToDecAux f n = natToDecAux g n := by
  intro f
  induction f with
  | zero =>
    intro g n hf _
    have : n = 0 := by omega
    subst this
    cases g with
    | zero => rfl
    | succ g => simp [natToDecAux]
  | succ f ih =>
    intro g n hf hg
    by_cases h10 : n < 10
    · cases g with
      | zero =>
        have : n = 0 := by omega
        subst this
        simp [natToDecAux]
      | succ g => simp [natToDecAux, if_pos h10]
    · cases g with
      | zero => omega
      | succ g =>
        simp only [natToDecAux, if_neg h10]
        rw [ih g (n / 10) (by omega) (by omega)]

/-- The recursive unfolding `natToDec` satisfies. -/
theorem natToDec_eq (n : Nat) :
    natToDec n = if n < 10 then [48 + n] else natToDec (n / 10) ++ [48 + n % 10] := by
  by_cases h10 : n < 10
  · cases n with
    | zero => simp [natToDec, natToDecAux]
    | succ m => simp [natToDec, natToDecAux, if_pos h10]
  · have hn : ∃ m, n = m + 1 := ⟨n - 1, by omega⟩
    obtain ⟨m, rfl⟩ := hn
    simp only [natToDec, natToDecAux, if_neg h10, if_pos]
    rw [natToDecAux_congr m ((m + 1) / 10) ((m + 1) / 10) (by omega) le_rfl]

theorem natToDec_ne_nil (n : Nat) : natToDec n ≠ [] := by
  rw [natToDec_eq]
  by_cases h : n < 10 <;> simp [h]

theorem natToDec_digits (n : Nat) : ∀ c ∈ natToDec n, isDigitCode c = true := by
  induction n using Nat.strong_induction_on with
  | _ n ih =>
    rw [natToDec_eq]
    by_cases h : n < 10
    · simp only [if_pos h, List.mem_singleton]
      rintro c rfl
      simp [isDigitCode]
      omega
    · simp only [if_neg h, List.mem_append, List.mem_singleton]
      rintro c (hc | rfl)
      · exact ih (n / 10) (by omega) c hc
      · simp [isDigitCode]
        omega

theorem natToDec_head (n : Nat) (h : 1 ≤ n) :
    ∃ d t, natToDec n = d :: t ∧ 49 ≤ d ∧ d ≤ 57 := by
  induction n using Nat.strong_induction_on with
  | _ n ih =>
    rw [natToDec_eq]
    by_cases h10 : n < 10
    · exact ⟨48 + n, [], by simp [h10], by omega, by omega⟩
    · obtain ⟨d, t, hdt, hd1, hd2⟩ := ih (n / 10) (by omega) (by omega)
      exact ⟨d, t ++ [48 + n % 10], by simp [if_neg h10, hdt], hd1, hd2⟩

theorem natToDec_foldl (n : Nat) :
    ∀ acc : Nat, (natToDec n).foldl (fun a d => a * 10 + (d - 48)) acc
      = acc * 10 ^ (natToDec n).length + n := by
  induction n using Nat.strong_induction_on with
  | _ n ih =>
    intro acc
    rw [natToDec_eq]
    by_cases h : n < 10
    · simp only [if_pos h, List.foldl_cons, List.foldl_nil, List.length_singleton, pow_one]
      omega
    · simp only [if_neg h, List.foldl_append, List.foldl_cons, List.foldl_nil,
        List.length_append, List.length_cons, List.length_nil]

      rw [ih (n / 10) (by omega) acc]
      have h1 : 48 + n % 10 - 48 = n % 10 := by omega
      rw [h1, pow_succ]
      have h2 : acc * (10 ^ (natToDec (n / 10)).length * 10)
          = acc * 10 ^ (natToDec (n / 10)).length * 10 := by ring
      rw [h2]
      omega

/-! ### Number parsing inverts `str(int)` -/

theorem digitsRun_append :
    ∀ (ds : List Nat) (acc : Nat) (rest : List Nat),
      (∀ d ∈ ds, isDigitCode d = true) →
      (∀ c, rest.head? = some c → isDigitCode c = false) →
      digitsRun acc (ds ++ rest) = (ds.foldl (fun a d => a * 10 + (d - 48)) acc, rest) := by
  intro ds
  induction ds with
  | nil =>
    intro acc rest _ hrest
    cases rest with
    | nil => rfl
    | cons c t => simp [digitsRun, hrest c rfl]
  | cons d ds ih =>
    intro acc rest hds hrest
    have hd : isDigitCode d = true := hds d (List.mem_cons_self ..)
    simp only [List.cons_append, digitsRun, hd, if_pos, List.foldl_cons]
    exact ih _ rest (fun x hx => hds x (List.mem_cons_of_mem _ hx)) hrest

theorem numBoundary_head {c : Nat} {t : List Nat} (h : numBoundary (c :: t) = true) :
    isDigitCode c = false ∧ c ≠ 46 ∧ c ≠ 101 ∧ c ≠ 69 := by
  simp only [numBoundary, Bool.not_eq_eq_eq_not, Bool.not_true, Bool.or_eq_false_iff,
    beq_eq_false_iff_ne] at h
  exact ⟨h.1.1.1, h.1.1.2, h.1.2, h.2⟩

theorem numBoundary_noDigit {rest : List Nat} (h : numBoundary rest = true) :
    ∀ c, rest.head? = some c → isDigitCode c = false := by
  intro c hc
  cases rest with
  | nil => simp at hc
  | cons x t =>
    simp only [List.head?_cons, Option.some.injEq] at hc
    subst hc
    exact (numBoundary_head h).1

theorem floatFollow_boundary {rest : List Nat} (h : numBoundary rest = true) :
    floatFollow rest = false := by
  cases rest with
  | nil => rfl
  | cons c t =>
    obtain ⟨_, h46, h101, h69⟩ := numBoundary_head h
    simp [floatFollow, h46, h101, h69]

theorem parseUInt_natToDec (n : Nat) (rest : List Nat)
    (hrest : ∀ c, rest.head? = some c → isDigitCode c = false) :
    parseUInt (natToDec n ++ rest) = some (n, rest) := by
  rcases Nat.eq_zero_or_pos n with rfl | hn
  · have : natToDec 0 = [48] := rfl
    rw [this]
    simp [parseUInt]
  · obtain ⟨d, t, hdt, hd1, hd2⟩ := natToDec_head n hn
    have hds : ∀ x ∈ natToDec n, isDigitCode x = true := natToDec_digits n
    rw [hdt] at hds ⊢
    simp only [List.cons_append, parseUInt]
    rw [if_neg (by omega), if_pos (by omega)]
    rw [digitsRun_append t (d - 48) rest
      (fun x hx => hds x (List.mem_cons_of_mem _ hx)) hrest]
    have hfold := natToDec_foldl n 0
    rw [hdt] at hfold
    simp only [List.foldl_cons] at hfold
    have : 0 * 10 + (d - 48) = d - 48 := by omega
    rw [this] at hfold
    rw [hfold]
    simp

theorem parseNumber_intToDec (i : Int) (rest : List Nat) (hb : numBoundary rest = true) :
    parseNumber (intToDec i ++ rest) = some (.num i, rest) := by
  have hnd := numBoundary_noDigit hb
  have hff := floatFollow_boundary hb
  by_cases hneg : i < 0
  · simp only [intToDec, if_pos hneg, List.cons_append, parseNumber]
    rw [parseUInt_natToDec i.natAbs rest hnd]
    simp [hff]
    rw [abs_of_neg hneg, neg_neg]
  · simp only [intToDec, if_neg hneg]
    rcases Nat.eq_zero_or_pos i.natAbs with h0 | hn
    · have hi : i = 0 := by omega
      subst hi
      have h48 : natToDec (0 : Int).natAbs = [48] := rfl
      rw [h48]
      simp only [List.cons_append, parseNumber]
      rw [if_neg (by omega)]
      simp only [parseUInt]
      simp [hff]
    · obtain ⟨d, t, hdt, hd1, hd2⟩ := natToDec_head i.natAbs hn
      have hpu := parseUInt_natToDec i.natAbs rest hnd
      rw [hdt] at hpu ⊢
      simp only [List.cons_append] at hpu ⊢
      simp only [parseNumber]
      rw [if_neg (by omega), hpu]
      simp [hff]
      omega

/-! ### String escaping inverts -/

theorem hexVal_hexDigitCode (d : Nat) (h : d < 16) : hexVal (hexDigitCode d) = some d := by
  by_cases h10 : d < 10
  · simp only [hexDigitCode, if_pos h10, hexVal]
    rw [if_pos (by omega)]
    congr 1
    omega
  · simp only [hexDigitCode, if_neg h10, hexVal]
    rw [if_neg (by omega), if_pos (by omega)]
    congr 1
    omega

theorem hexVal_hexDigitCode_mod (x : Nat) : hexVal (hexDigitCode (x % 16)) = some (x % 16) :=
  hexVal_hexDigitCode _ (Nat.mod_lt _ (by omega))

theorem parseHexQuad_hexQuad (n : Nat) (hn : n < 65536) (rest : List Nat) :
    parseHexQuad (hexQuad n ++ rest) = some (n, rest) := by
  simp only [hexQuad, List.cons_append, parseHexQuad, hexVal_hexDigitCode_mod]
  congr 2
  omega

/-- `parseEscape` after `\\u`, when the quad is no high surrogate:
the code point stands alone. -/
theorem parseEscape_u_single (cs2 rest : List Nat) (u : Nat)
    (hq : parseHexQuad cs2 = some (u, rest)) (hns : ¬(55296 ≤ u ∧ u ≤ 56319)) :
    parseEscape (117 :: cs2) = some (u, rest) := by
  simp only [parseEscape, hq]
  rw [if_neg hns]
  norm_num

/-- `parseEscape` after `\\u`, high surrogate followed by a
`\\u`-escaped low surrogate: the pair combines, consuming both. -/
theorem parseEscape_u_pair (cs2 rest2 rest3 : List Nat) (u u2 : Nat)
    (hq1 : parseHexQuad cs2 = some (u, 92 :: 117 :: rest2))
    (hq2 : parseHexQuad rest2 = some (u2, rest3))
    (hu : 55296 ≤ u ∧ u ≤ 56319) (hu2 : 56320 ≤ u2 ∧ u2 ≤ 57343) :
    parseEscape (117 :: cs2) = some (65536 + 1024 * (u - 55296) + (u2 - 56320), rest3) := by
  simp only [parseEscape, hq1]
  rw [if_pos hu]
  simp only [hq2]
  rw [if_pos hu2]
  norm_num

/-- `parseEscape` on the `\\uXXXX` encoding of a non-high-surrogate code
point below `0x10000` recovers it (and consumes nothing further). -/
theorem parseEscape_quad (c : Nat) (hc : c < 65536) (hns : ¬(55296 ≤ c ∧ c ≤ 56319))
    (rest : List Nat) : parseEscape (117 :: (hexQuad c ++ rest)) = some (c, rest) :=
  parseEscape_u_single _ _ _ (parseHexQuad_hexQuad c hc rest) hns

set_option maxRecDepth 4096 in
/-- `parseEscape` on a surrogate-pair encoding combines it back into the
astral code point, consuming both escapes. -/
theorem parseEscape_astral (c : Nat) (h1 : 65536 ≤ c) (h2 : c < 1114112) (rest : List Nat) :
    parseEscape (117 :: (hexQuad (55296 + (c - 65536) / 1024) ++
      (92 :: 117 :: (hexQuad (56320 + (c - 65536) % 1024) ++ rest)))) = some (c, rest) := by
  have step := parseEscape_u_pair
    (hexQuad (55296 + (c - 65536) / 1024) ++
      (92 :: 117 :: (hexQuad (56320 + (c - 65536) % 1024) ++ rest)))
    (hexQuad (56320 + (c - 65536) % 1024) ++ rest) rest
    (55296 + (c - 65536) / 1024) (56320 + (c - 65536) % 1024)
    (parseHexQuad_hexQuad _ (by omega) _)
    (parseHexQuad_hexQuad _ (by omega) _)
    (by constructor <;> omega) (by constructor <;> omega)
  rw [step]
  simp only [Option.some.injEq, Prod.mk.injEq]
  exact ⟨by omega, trivial⟩

/-- One-step unfolding of `parseStringBodyF` at successor fuel. -/
theorem parseStringBodyF_step (fuel : Nat) (c : Nat) (cs : List Nat) :
    parseStringBodyF (fuel + 1) (c :: cs) =
      if c = 34 then some ([], cs)
      else if c = 92 then
        match parseEscape cs with
        | some (u, rest) => (parseStringBodyF fuel rest).map (fun r => (u :: r.1, r.2))
        | none => none
      else if c < 32 then none
      else (parseStringBodyF fuel cs).map (fun r => (c :: r.1, r.2)) := rfl

/-- Parsing one escaped character undoes `escapeCode`. -/
theorem parseStringBodyF_escapeCode (c : Nat) (hwf : isScalar c = true) (fuel : Nat)
    (tail : List Nat) :
    parseStringBodyF (fuel + 1) (escapeCode c ++ tail) =
      (parseStringBodyF fuel tail).map (fun r => (c :: r.1, r.2)) := by
  have hsc : c < 55296 ∨ (57344 ≤ c ∧ c < 1114112) := by
    have := of_decide_eq_true hwf
    exact this
  by_cases h34 : c = 34
  · subst h34; simp [escapeCode, parseStringBodyF_step, parseEscape]
  by_cases h92 : c = 92
  · subst h92; simp [escapeCode, parseStringBodyF_step, parseEscape]
  by_cases h8 : c = 8
  · subst h8; simp [escapeCode, parseStringBodyF_step, parseEscape]
  by_cases h9 : c = 9
  · subst h9; simp [escapeCode, parseStringBodyF_step, parseEscape]
  by_cases h10 : c = 10
  · subst h10; simp [escapeCode, parseStringBodyF_step, parseEscape]
  by_cases h12 : c = 12
  · subst h12; simp [escapeCode, parseStringBodyF_step, parseEscape]
  by_cases h13 : c = 13
  · subst h13; simp [escapeCode, parseStringBodyF_step, parseEscape]
  by_cases hplain : 32 ≤ c ∧ c ≤ 126
  · have hec : escapeCode c = [c] := by
      rw [escapeCode, if_neg h34, if_neg h92, if_neg h8, if_neg h9, if_neg h10,
        if_neg h12, if_neg h13, if_pos hplain]
    rw [hec, List.cons_append, List.nil_append, parseStringBodyF_step,
      if_neg h34, if_neg h92, if_neg (by omega : ¬c < 32)]
  by_cases hbmp : c < 65536
  · have hec : escapeCode c = 92 :: 117 :: hexQuad c := by
      rw [escapeCode, if_neg h34, if_neg h92, if_neg h8, if_neg h9, if_neg h10,
        if_neg h12, if_neg h13, if_neg hplain, if_pos hbmp]
    have hpe : parseEscape (117 :: (hexQuad c ++ tail)) = some (c, tail) :=
      parseEscape_quad c hbmp (by omega) tail
    rw [hec, List.cons_append, List.cons_append, parseStringBodyF_step,
      if_neg (by omega : ¬(92 : Nat) = 34), if_pos rfl, hpe]
  · have hc1 : 65536 ≤ c := by omega
    have hc2 : c < 1114112 := by omega
    have hec : escapeCode c =
        (92 :: 117 :: hexQuad (55296 + (c - 65536) / 1024)) ++
          (92 :: 117 :: hexQuad (56320 + (c - 65536) % 1024)) := by
      rw [escapeCode, if_neg h34, if_neg h92, if_neg h8, if_neg h9, if_neg h10,
        if_neg h12, if_neg h13, if_neg hplain, if_neg (by omega : ¬c < 65536)]
    have hpe : parseEscape (117 :: (hexQuad (55296 + (c - 65536) / 1024) ++
        (92 :: 117 :: (hexQuad (56320 + (c - 65536) % 1024) ++ tail)))) = some (c, tail) :=
      parseEscape_astral c hc1 hc2 tail
    rw [hec]
    rw [List.append_assoc, List.cons_append, List.cons_append, List.cons_append,
      List.cons_append, parseStringBodyF_step,
      if_neg (by omega : ¬(92 : Nat) = 34), if_pos rfl, hpe]

/-- Parsing a fully escaped string body stops exactly at the closing
quote, recovering the original code points. -/
theorem parseStringBodyF_escapeString :
    ∀ (s : List Nat) (fuel : Nat) (rest : List Nat), wfString s = true → s.length < fuel →
      parseStringBodyF fuel (escapeString s ++ (34 :: rest)) = some (s, rest) := by
  intro s
  induction s with
  | nil =>
    intro fuel rest _ hfuel
    obtain ⟨f, rfl⟩ : ∃ f, fuel = f + 1 := ⟨fuel - 1, by omega⟩
    simp [escapeString, parseStringBodyF_step]
  | cons c cs ih =>
    intro fuel rest hwf hfuel
    obtain ⟨f, rfl⟩ : ∃ f, fuel = f + 1 := ⟨fuel - 1, by omega⟩
    have hc : isScalar c = true := by
      simp only [wfString, List.all_cons, Bool.and_eq_true] at hwf
      exact hwf.1
    have hcs : wfString cs = true := by
      simp only [wfString, List.all_cons, Bool.and_eq_true] at hwf
      exact hwf.2
    have hlen : cs.length < f := by simp at hfuel; omega
    simp only [escapeString, List.append_assoc]
    rw [parseStringBodyF_escapeCode c hc f (escapeString cs ++ (34 :: rest)),
      ih f rest hcs hlen]
    rfl

/-- Each escape produces at least one character. -/
theorem escapeCode_length_pos (c : Nat) : 1 ≤ (escapeCode c).length := by
  rw [escapeCode]
  split
  · simp
  · split
    · simp
    · split
      · simp
      · split
        · simp
        · split
          · simp
          · split
            · simp
            · split
              · simp
              · split
                · simp
                · split
                  · simp [hexQuad]
                  · simp [hexQuad]

theorem escapeString_length_ge : ∀ s : List Nat, s.length ≤ (escapeString s).length := by
  intro s
  induction s with
  | nil => simp [escapeString]
  | cons c cs ih =>
    have := escapeCode_length_pos c
    simp only [escapeString, List.length_append, List.length_cons]
    omega

/-- The `scanstring` wrapper inverts escaping: its own fuel sizing is
always sufficient. -/
theorem parseStringBody_escapeString (s : List Nat) (rest : List Nat)
    (hwf : wfString s = true) :
    parseStringBody (escapeString s ++ (34 :: rest)) = some (s, rest) := by
  have h1 := escapeString_length_ge s
  apply parseStringBodyF_escapeString s _ rest hwf
  simp only [List.length_append, List.length_cons]
  omega

/-! ### Heads of rendered output, and the fuel bound -/

theorem skipWs_cons_not {c : Nat} (t : List Nat) (h : isJsonWs c = false) :
    skipWs (c :: t) = c :: t := by
  simp [skipWs, h]

/-- Every rendered value begins with a character that is no JSON
whitespace and closes neither an array nor an object nor a member list. -/
theorem dumps_head (v : JValue) :
    ∃ c t, dumps v = c :: t ∧ isJsonWs c = false ∧ c ≠ 93 ∧ c ≠ 125 ∧ c ≠ 44 := by
  cases v with
  | null => exact ⟨110, _, rfl, by decide, by decide, by decide, by decide⟩
  | bool b =>
    cases b with
    | true => exact ⟨116, _, rfl, by decide, by decide, by decide, by decide⟩
    | false => exact ⟨102, _, rfl, by decide, by decide, by decide, by decide⟩
  | str s => exact ⟨34, _, rfl, by decide, by decide, by decide, by decide⟩
  | arr xs => exact ⟨91, _, rfl, by decide, by decide, by decide, by decide⟩
  | obj kvs => exact ⟨123, _, rfl, by decide, by decide, by decide, by decide⟩
  | num i =>
    by_cases hneg : i < 0
    · refine ⟨45, natToDec i.natAbs, ?_, by decide, by decide, by decide, by decide⟩
      simp [dumps, intToDec, hneg]
    · rcases Nat.eq_zero_or_pos i.natAbs with h0 | hn
      · refine ⟨48, [], ?_, by decide, by decide, by decide, by decide⟩
        have : natToDec i.natAbs = [48] := by rw [h0]; rfl
        simp [dumps, intToDec, hneg, this]
      · obtain ⟨d, t, hdt, hd1, hd2⟩ := natToDec_head i.natAbs hn
        refine ⟨d, t, ?_, ?_, by omega, by omega, by omega⟩
        · simp [dumps, intToDec, hneg, hdt]
        · simp [isJsonWs]
          omega

theorem skipWs_dumps (v : JValue) (x : List Nat) :
    skipWs (dumps v ++ x) = dumps v ++ x := by
  obtain ⟨c, t, hct, hws, _, _, _⟩ := dumps_head v
  rw [hct, List.cons_append, skipWs_cons_not _ hws]

/-- The parser-call count of a value is within its rendered length. -/
theorem jsize_le_all : ∀ n : Nat,
    (∀ v, jsize v ≤ n → jsize v ≤ (dumps v).length) ∧
    (∀ xs, jsizeList xs ≤ n → jsizeList xs ≤ (dumpsElems xs).length + 1) ∧
    (∀ kvs, jsizeMembers kvs ≤ n → jsizeMembers kvs ≤ (dumpsMembers kvs).length + 1) := by
  intro n
  induction n using Nat.strong_induction_on with
  | _ n ih =>
    refine ⟨?_, ?_, ?_⟩
    · intro v hv
      cases v with
      | null => simp [dumps, jsize]
      | bool b => cases b <;> simp [dumps, jsize]
      | num i =>
        have h1 : intToDec i ≠ [] := by
          rw [intToDec]
          split
          · simp
          · exact natToDec_ne_nil _
        have : 1 ≤ (intToDec i).length := by
          cases h : intToDec i with
          | nil => exact absurd h h1
          | cons a t => simp
        simp only [dumps, jsize]
        omega
      | str s => simp [dumps, jsize]
      | arr xs =>
        simp only [dumps, jsize] at hv ⊢
        rcases Nat.eq_zero_or_pos n with rfl | hnpos
        · omega
        · have := (ih (n - 1) (by omega)).2.1 xs (by omega)
          simp only [List.length_cons, List.length_append, List.length_singleton]
          omega
      | obj kvs =>
        simp only [dumps, jsize] at hv ⊢
        rcases Nat.eq_zero_or_pos n with rfl | hnpos
        · omega
        · have := (ih (n - 1) (by omega)).2.2 kvs (by omega)
          simp only [List.length_cons, List.length_append, List.length_singleton]
          omega
    · intro xs hxs
      cases xs with
      | nil => simp [dumpsElems, jsizeList]
      | cons x t =>
        simp only [jsizeList] at hxs
        rcases Nat.eq_zero_or_pos n with rfl | hnpos
        · omega
        · have hx := (ih (n - 1) (by omega)).1 x (by omega)
          cases t with
          | nil =>
            simp only [dumpsElems, jsizeList, List.length_nil]
            omega
          | cons y t2 =>
            have ht := (ih (n - 1) (by omega)).2.1 (y :: t2) (by simp [jsizeList] at hxs ⊢; omega)
            simp only [dumpsElems, jsizeList, List.length_append, List.length_cons] at *
            omega
    · intro kvs hkvs
      cases kvs with
      | nil => simp [dumpsMembers, jsizeMembers]
      | cons kv t =>
        obtain ⟨k, v⟩ := kv
        simp only [jsizeMembers] at hkvs
        rcases Nat.eq_zero_or_pos n with rfl | hnpos
        · omega
        · have hx := (ih (n - 1) (by omega)).1 v (by omega)
          cases t with
          | nil =>
            simp only [dumpsMembers, jsizeMembers, List.length_cons, List.length_append]
            omega
          | cons kv2 t2 =>
            obtain ⟨k2, v2⟩ := kv2
            have ht := (ih (n - 1) (by omega)).2.2 ((k2, v2) :: t2)
              (by simp [jsizeMembers] at hkvs ⊢; omega)
            simp only [dumpsMembers, jsizeMembers, List.length_append, List.length_cons] at *
            omega

theorem jsize_le_dumps (v : JValue) : jsize v ≤ (dumps v).length :=
  (jsize_le_all (jsize v)).1 v le_rfl

/-- One-step unfolding of `parseValue` at successor fuel. -/
theorem parseValue_step (fuel : Nat) (s : List Nat) :
    parseValue (fuel + 1) s =
      match s with
      | [] => none
      | c :: cs =>
        if c = 123 then (parseMembers fuel (skipWs cs)).map (fun r => (.obj r.1, r.2))
        else if c = 91 then (parseElems fuel (skipWs cs)).map (fun r => (.arr r.1, r.2))
        else if c = 34 then (parseStringBody cs).map (fun r => (.str r.1, r.2))
        else if c = 110 then
          match cs with
          | 117 :: 108 :: 108 :: rest => some (.null, rest)
          | _ => none
        else if c = 116 then
          match cs with
          | 114 :: 117 :: 101 :: rest => some (.bool true, rest)
          | _ => none
        else if c = 102 then
          match cs with
          | 97 :: 108 :: 115 :: 101 :: rest => some (.bool false, rest)
          | _ => none
        else parseNumber (c :: cs) := rfl

/-- One-step unfolding of `parseElems` at successor fuel. -/
theorem parseElems_step (fuel : Nat) (s : List Nat) :
    parseElems (fuel + 1) s =
      match s with
      | [] => none
      | c :: cs =>
        if c = 93 then some ([], cs)
        else
          match parseValue fuel (c :: cs) with
          | none => none
          | some (v, r1) =>
            match skipWs r1 with
            | [] => none
            | d :: r2 =>
              if d = 44 then
                match skipWs r2 with
                | [] => none
                | e :: r3 =>
                  if e = 93 then none
                  else
                    match parseElems fuel (e :: r3) with
                    | some (vs, r4) => some (v :: vs, r4)
                    | none => none
              else if d = 93 then some ([v], r2)
              else none := rfl

/-- One-step unfolding of `parseMembers` at successor fuel. -/
theorem parseMembers_step (fuel : Nat) (s : List Nat) :
    parseMembers (fuel + 1) s =
      match s with
      | [] => none
      | c :: cs =>
        if c = 125 then some ([], cs)
        else if c = 34 then
          match parseStringBody cs with
          | none => none
          | some (k, r1) =>
            match skipWs r1 with
            | [] => none
            | d :: r2 =>
              if d = 58 then
                match parseValue fuel (skipWs r2) with
                | none => none
                | some (v, r3) =>
                  match skipWs r3 with
                  | [] => none
                  | e :: r4 =>
                    if e = 44 then
                      match skipWs r4 with
                      | [] => none
                      | f2 :: r5 =>
                        if f2 = 34 then
                          match parseMembers fuel (f2 :: r5) with
                          | some (kvs, r6) => some ((k, v) :: kvs, r6)
                          | none => none
                        else none
                    else if e = 125 then some ([(k, v)], r4)
                    else none
              else none
        else none := rfl

theorem numBoundary_44 (t : List Nat) : numBoundary (44 :: t) = true := by
  simp [numBoundary, isDigitCode]

theorem numBoundary_93 (t : List Nat) : numBoundary (93 :: t) = true := by
  simp [numBoundary, isDigitCode]

theorem numBoundary_125 (t : List Nat) : numBoundary (125 :: t) = true := by
  simp [numBoundary, isDigitCode]

theorem skipWs_32 (t : List Nat) : skipWs (32 :: t) = skipWs t := by
  simp [skipWs, isJsonWs]

/-- The rendered tail of a nonempty element list starts like its first
rendered value, so whitespace skipping leaves it alone. -/
theorem skipWs_dumpsElems (x : JValue) (xs : List JValue) (z : List Nat) :
    skipWs (dumpsElems (x :: xs) ++ z) = dumpsElems (x :: xs) ++ z := by
  obtain ⟨c, t, hct, hws, _, _, _⟩ := dumps_head x
  cases xs with
  | nil =>
    simp only [dumpsElems, hct, List.cons_append]
    rw [skipWs_cons_not _ hws]
  | cons y t2 =>
    simp only [dumpsElems, hct, List.cons_append, List.append_assoc]
    rw [skipWs_cons_not _ hws]

theorem skipWs_dumpsMembers (k : List Nat) (v : JValue)
    (kvs : List (List Nat × JValue)) (z : List Nat) :
    skipWs (dumpsMembers ((k, v) :: kvs) ++ z) = dumpsMembers ((k, v) :: kvs) ++ z := by
  cases kvs with
  | nil =>
    simp only [dumpsMembers, List.cons_append]
    rw [skipWs_cons_not _ (by decide)]
  | cons kv2 t2 =>
    obtain ⟨k2, v2⟩ := kv2
    simp only [dumpsMembers, List.cons_append]
    rw [skipWs_cons_not _ (by decide)]


theorem natToDec_head48 (n : Nat) : ∃ d t, natToDec n = d :: t ∧ 48 ≤ d ∧ d ≤ 57 := by
  cases h : natToDec n with
  | nil => exact absurd h (natToDec_ne_nil n)
  | cons d t =>
    have hd := natToDec_digits n d (h ▸ List.mem_cons_self ..)
    simp only [isDigitCode, decide_eq_true_eq] at hd
    exact ⟨d, t, rfl, hd.1, hd.2⟩

theorem dumpsElems_head (y : JValue) (t2 : List JValue) (z : List Nat) :
    ∃ c t, dumpsElems (y :: t2) ++ z = c :: t ∧ isJsonWs c = false ∧ c ≠ 93 := by
  obtain ⟨c, t, hct, hws, h93, _, _⟩ := dumps_head y
  cases t2 with
  | nil => exact ⟨c, t ++ z, by simp [dumpsElems, hct], hws, h93⟩
  | cons a b =>
    exact ⟨c, t ++ (44 :: 32 :: dumpsElems (a :: b)) ++ z,
      by simp [dumpsElems, hct], hws, h93⟩

theorem dumpsMembers_head (m : List Nat × JValue) (t : List (List Nat × JValue))
    (z : List Nat) : ∃ r, dumpsMembers (m :: t) ++ z = 34 :: r := by
  obtain ⟨k, v⟩ := m
  cases t with
  | nil =>
    refine ⟨escapeString k ++ (34 :: 58 :: 32 :: dumps v) ++ z, ?_⟩
    simp [dumpsMembers]
  | cons a b =>
    refine ⟨escapeString k ++
      (34 :: 58 :: 32 :: (dumps v ++ (44 :: 32 :: dumpsMembers (a :: b)))) ++ z, ?_⟩
    simp [dumpsMembers]

/-- `parseValue` at successor fuel on a nonempty input. -/
theorem parseValue_cons (fuel : Nat) (c : Nat) (cs : List Nat) :
    parseValue (fuel + 1) (c :: cs) =
      (if c = 123 then (parseMembers fuel (skipWs cs)).map (fun r => (.obj r.1, r.2))
      else if c = 91 then (parseElems fuel (skipWs cs)).map (fun r => (.arr r.1, r.2))
      else if c = 34 then (parseStringBody cs).map (fun r => (.str r.1, r.2))
      else if c = 110 then
        match cs with
        | 117 :: 108 :: 108 :: rest => some (.null, rest)
        | _ => none
      else if c = 116 then
        match cs with
        | 114 :: 117 :: 101 :: rest => some (.bool true, rest)
        | _ => none
      else if c = 102 then
        match cs with
        | 97 :: 108 :: 115 :: 101 :: rest => some (.bool false, rest)
        | _ => none
      else parseNumber (c :: cs)) := rfl

/-- `parseElems` at successor fuel on a nonempty input. -/
theorem parseElems_cons (fuel : Nat) (c : Nat) (cs : List Nat) :
    parseElems (fuel + 1) (c :: cs) =
      (if c = 93 then some ([], cs)
      else
        match parseValue fuel (c :: cs) with
        | none => none
        | some (v, r1) =>
          match skipWs r1 with
          | [] => none
          | d :: r2 =>
            if d = 44 then
              match skipWs r2 with
              | [] => none
              | e :: r3 =>
                if e = 93 then none
                else
                  match parseElems fuel (e :: r3) with
                  | some (vs, r4) => some (v :: vs, r4)
                  | none => none
            else if d = 93 then some ([v], r2)
            else none) := rfl

/-- `parseMembers` at successor fuel on a nonempty input. -/
theorem parseMembers_cons (fuel : Nat) (c : Nat) (cs : List Nat) :
    parseMembers (fuel + 1) (c :: cs) =
      (if c = 125 then some ([], cs)
      else if c = 34 then
        match parseStringBody cs with
        | none => none
        | some (k, r1) =>
          match skipWs r1 with
          | [] => none
          | d :: r2 =>
            if d = 58 then
              match parseValue fuel (skipWs r2) with
              | none => none
              | some (v, r3) =>
                match skipWs r3 with
                | [] => none
                | e :: r4 =>
                  if e = 44 then
                    match skipWs r4 with
                    | [] => none
                    | f2 :: r5 =>
                      if f2 = 34 then
                        match parseMembers fuel (f2 :: r5) with
                        | some (kvs, r6) => some ((k, v) :: kvs, r6)
                        | none => none
                      else none
                  else if e = 125 then some ([(k, v)], r4)
                  else none
              else none
        else none) := rfl

mutual
/-- The round trip: parsing rendered output recovers the value, for any
non-extending remainder and any fuel above the node count. -/
theorem rt_val : ∀ (v : JValue) (fuel : Nat) (rest : List Nat),
    wfJ v = true → jsize v < fuel → numBoundary rest = true →
    parseValue fuel (dumps v ++ rest) = some (v, rest)
  | .null, fuel, rest, _, hf, _ => by
    obtain ⟨f, rfl⟩ : ∃ f, fuel = f + 1 := ⟨fuel - 1, by simp [jsize] at hf; omega⟩
    rfl
  | .bool true, fuel, rest, _, hf, _ => by
    obtain ⟨f, rfl⟩ : ∃ f, fuel = f + 1 := ⟨fuel - 1, by simp [jsize] at hf; omega⟩
    rfl
  | .bool false, fuel, rest, _, hf, _ => by
    obtain ⟨f, rfl⟩ : ∃ f, fuel = f + 1 := ⟨fuel - 1, by simp [jsize] at hf; omega⟩
    rfl
  | .num i, fuel, rest, _, hf, hb => by
    obtain ⟨f, rfl⟩ : ∃ f, fuel = f + 1 := ⟨fuel - 1, by simp [jsize] at hf; omega⟩
    have key := parseNumber_intToDec i rest hb
    have hdv : dumps (.num i) = intToDec i := rfl
    by_cases hneg : i < 0
    · have hd : intToDec i = 45 :: natToDec i.natAbs := by simp [intToDec, hneg]
      rw [hdv, hd, List.cons_append, parseValue_cons]
      rw [if_neg (by omega), if_neg (by omega), if_neg (by omega), if_neg (by omega),
        if_neg (by omega), if_neg (by omega)]
      rw [← List.cons_append, ← hd, key]
    · have hd0 : intToDec i = natToDec i.natAbs := by simp [intToDec, hneg]
      obtain ⟨d, t, hdt, hd48, hd57⟩ := natToDec_head48 i.natAbs
      rw [hdv, hd0, hdt, List.cons_append, parseValue_cons]
      rw [if_neg (by omega), if_neg (by omega), if_neg (by omega), if_neg (by omega),
        if_neg (by omega), if_neg (by omega)]
      rw [← List.cons_append, ← hdt, ← hd0, key]
  | .str s, fuel, rest, hwf, hf, _ => by
    obtain ⟨f, rfl⟩ : ∃ f, fuel = f + 1 := ⟨fuel - 1, by simp [jsize] at hf; omega⟩
    have hwfs : wfString s = true := by simpa [wfJ] using hwf
    have harg : dumps (.str s) ++ rest = 34 :: (escapeString s ++ (34 :: rest)) := by
      simp [dumps]
    rw [harg, parseValue_cons]
    rw [if_neg (by omega), if_neg (by omega), if_pos rfl,
      parseStringBody_escapeString s rest hwfs]
    rfl
  | .arr [], fuel, rest, _, hf, _ => by
    obtain ⟨g, rfl⟩ : ∃ g, fuel = g + 2 :=
      ⟨fuel - 2, by simp [jsize, jsizeList] at hf; omega⟩
    rfl
  | .arr (x :: xs), fuel, rest, hwf, hf, _ => by
    obtain ⟨f, rfl⟩ : ∃ f, fuel = f + 1 := ⟨fuel - 1, by simp [jsize] at hf; omega⟩
    have hwx : wfJList (x :: xs) = true := by simpa [wfJ] using hwf
    have hsz : jsizeList (x :: xs) < f := by simp [jsize] at hf; omega
    have harg : dumps (.arr (x :: xs)) ++ rest
        = 91 :: (dumpsElems (x :: xs) ++ (93 :: rest)) := by simp [dumps]
    rw [harg, parseValue_cons]
    rw [if_neg (by omega), if_pos rfl, skipWs_dumpsElems,
      rt_elems x xs f rest hwx hsz]
    rfl
  | .obj [], fuel, rest, _, hf, _ => by
    obtain ⟨g, rfl⟩ : ∃ g, fuel = g + 2 :=
      ⟨fuel - 2, by simp [jsize, jsizeMembers] at hf; omega⟩
    rfl
  | .obj ((k, v) :: kvs), fuel, rest, hwf, hf, _ => by
    obtain ⟨f, rfl⟩ : ∃ f, fuel = f + 1 := ⟨fuel - 1, by simp [jsize] at hf; omega⟩
    have hwx : wfJMembers ((k, v) :: kvs) = true := by simpa [wfJ] using hwf
    have hsz : jsizeMembers ((k, v) :: kvs) < f := by simp [jsize] at hf; omega
    have harg : dumps (.obj ((k, v) :: kvs)) ++ rest
        = 123 :: (dumpsMembers ((k, v) :: kvs) ++ (125 :: rest)) := by simp [dumps]
    rw [harg, parseValue_cons]
    rw [if_pos rfl, skipWs_dumpsMembers, rt_members k v kvs f rest hwx hsz]
    rfl
  termination_by v _ _ _ _ _ => sizeOf v
  decreasing_by
    all_goals
      simp_wf
      try subst_vars
      try simp only [JValue.arr.sizeOf_spec, JValue.obj.sizeOf_spec, JValue.str.sizeOf_spec,
        List.cons.sizeOf_spec, List.nil.sizeOf_spec, Prod.mk.sizeOf_spec]
      omega

/-- Round trip for a nonempty comma-separated element list up to `]`. -/
theorem rt_elems : ∀ (x : JValue) (xs : List JValue) (fuel : Nat) (rest : List Nat),
    wfJList (x :: xs) = true → jsizeList (x :: xs) < fuel →
    parseElems fuel (dumpsElems (x :: xs) ++ (93 :: rest)) = some (x :: xs, rest)
  | x, [], fuel, rest, hwf, hsz => by
    obtain ⟨f, rfl⟩ : ∃ f, fuel = f + 1 := ⟨fuel - 1, by simp [jsizeList] at hsz; omega⟩
    obtain ⟨c, t, hct, hws, h93, _, h44⟩ := dumps_head x
    have hwfx : wfJ x = true := by
      simp only [wfJList, Bool.and_eq_true] at hwf
      exact hwf.1
    have hszx : jsize x < f := by simp [jsizeList] at hsz; omega
    have harg : dumpsElems [x] ++ (93 :: rest) = c :: (t ++ (93 :: rest)) := by
      simp [dumpsElems, hct]
    have hv := rt_val x f (93 :: rest) hwfx hszx (numBoundary_93 rest)
    rw [hct, List.cons_append] at hv
    rw [harg, parseElems_cons, if_neg h93, hv]
    dsimp only
    rw [skipWs_cons_not _ (by decide)]
    dsimp only
    rw [if_neg (by omega), if_pos rfl]
  | x, y :: t2, fuel, rest, hwf, hsz => by
    obtain ⟨f, rfl⟩ : ∃ f, fuel = f + 1 := ⟨fuel - 1, by simp [jsizeList] at hsz; omega⟩
    obtain ⟨c, t, hct, hws, h93, _, h44⟩ := dumps_head x
    have hwfx : wfJ x = true := by
      simp only [wfJList, Bool.and_eq_true] at hwf
      exact hwf.1
    have hszx : jsize x < f := by simp [jsizeList] at hsz; omega
    have hwft : wfJList (y :: t2) = true := by
      simp only [wfJList, Bool.and_eq_true] at hwf ⊢
      exact hwf.2
    have hszt : jsizeList (y :: t2) < f := by simp [jsizeList] at hsz ⊢; omega
    have harg : dumpsElems (x :: y :: t2) ++ (93 :: rest)
        = c :: (t ++ (44 :: 32 :: (dumpsElems (y :: t2) ++ (93 :: rest)))) := by
      simp [dumpsElems, hct]
    have hv := rt_val x f (44 :: 32 :: (dumpsElems (y :: t2) ++ (93 :: rest))) hwfx hszx
      (numBoundary_44 _)
    rw [hct, List.cons_append] at hv
    obtain ⟨e, r3, he, hwse, he93⟩ := dumpsElems_head y t2 (93 :: rest)
    have htail := rt_elems y t2 f rest hwft hszt
    rw [he] at htail
    rw [harg, parseElems_cons, if_neg h93, hv]
    dsimp only
    rw [skipWs_cons_not _ (by decide)]
    dsimp only
    rw [if_pos rfl, skipWs_32, skipWs_dumpsElems, he]
    dsimp only
    rw [if_neg he93, htail]
  termination_by x xs _ _ _ _ => sizeOf x + sizeOf xs
  decreasing_by
    all_goals simp_wf
    all_goals omega

/-- Round trip for a nonempty member list up to the closing brace. -/
theorem rt_members : ∀ (k : List Nat) (v : JValue) (kvs : List (List Nat × JValue))
    (fuel : Nat) (rest : List Nat),
    wfJMembers ((k, v) :: kvs) = true → jsizeMembers ((k, v) :: kvs) < fuel →
    parseMembers fuel (dumpsMembers ((k, v) :: kvs) ++ (125 :: rest))
      = some ((k, v) :: kvs, rest)
  | k, v, [], fuel, rest, hwf, hsz => by
    obtain ⟨f, rfl⟩ : ∃ f, fuel = f + 1 := ⟨fuel - 1, by simp [jsizeMembers] at hsz; omega⟩
    have hwfk : wfString k = true := by
      simp only [wfJMembers, Bool.and_eq_true] at hwf
      exact hwf.1.1
    have hwfv : wfJ v = true := by
      simp only [wfJMembers, Bool.and_eq_true] at hwf
      exact hwf.1.2
    have hszv : jsize v < f := by simp [jsizeMembers] at hsz; omega
    have harg : dumpsMembers [(k, v)] ++ (125 :: rest)
        = 34 :: (escapeString k ++ (34 :: (58 :: 32 :: (dumps v ++ (125 :: rest))))) := by
      simp [dumpsMembers]
    have hkey := parseStringBody_escapeString k
      (58 :: 32 :: (dumps v ++ (125 :: rest))) hwfk
    have hv := rt_val v f (125 :: rest) hwfv hszv (numBoundary_125 rest)
    rw [harg, parseMembers_cons, if_neg (by omega), if_pos rfl, hkey]
    dsimp only
    rw [skipWs_cons_not _ (by decide)]
    dsimp only
    rw [if_pos rfl, skipWs_32, skipWs_dumps, hv]
    dsimp only
    rw [skipWs_cons_not _ (by decide)]
    dsimp only
    rw [if_neg (by omega), if_pos rfl]
  | k, v, (k2, v2) :: t2, fuel, rest, hwf, hsz => by
    obtain ⟨f, rfl⟩ : ∃ f, fuel = f + 1 := ⟨fuel - 1, by simp [jsizeMembers] at hsz; omega⟩
    have hwfk : wfString k = true := by
      simp only [wfJMembers, Bool.and_eq_true] at hwf
      exact hwf.1.1
    have hwfv : wfJ v = true := by
      simp only [wfJMembers, Bool.and_eq_true] at hwf
      exact hwf.1.2
    have hszv : jsize v < f := by simp [jsizeMembers] at hsz; omega
    have hwft : wfJMembers ((k2, v2) :: t2) = true := by
      simp only [wfJMembers, Bool.and_eq_true] at hwf ⊢
      exact hwf.2
    have hszt : jsizeMembers ((k2, v2) :: t2) < f := by
      simp [jsizeMembers] at hsz ⊢
      omega
    have harg : dumpsMembers ((k, v) :: (k2, v2) :: t2) ++ (125 :: rest)
        = 34 :: (escapeString k ++ (34 :: (58 :: 32 :: (dumps v ++
          (44 :: 32 :: (dumpsMembers ((k2, v2) :: t2) ++ (125 :: rest))))))) := by
      simp [dumpsMembers]
    have hkey := parseStringBody_escapeString k
      (58 :: 32 :: (dumps v ++ (44 :: 32 :: (dumpsMembers ((k2, v2) :: t2)
        ++ (125 :: rest))))) hwfk
    have hv := rt_val v f (44 :: 32 :: (dumpsMembers ((k2, v2) :: t2) ++ (125 :: rest)))
      hwfv hszv (numBoundary_44 _)
    obtain ⟨r5, hr5⟩ := dumpsMembers_head (k2, v2) t2 (125 :: rest)
    have htail := rt_members k2 v2 t2 f rest hwft hszt
    rw [hr5] at htail
    rw [harg, parseMembers_cons, if_neg (by omega), if_pos rfl, hkey]
    dsimp only
    rw [skipWs_cons_not _ (by decide)]
    dsimp only
    rw [if_pos rfl, skipWs_32, skipWs_dumps, hv]
    dsimp only
    rw [skipWs_cons_not _ (by decide)]
    dsimp only
    rw [if_pos rfl, skipWs_32, skipWs_dumpsMembers, hr5]
    dsimp only
    rw [if_pos rfl, htail]
  termination_by k v kvs _ _ _ _ => sizeOf v + sizeOf kvs
  decreasing_by
    all_goals simp_wf
    all_goals omega
end

/-! ### Full-text round trip -/

/-- `json.loads` undoes `json.dumps` on any well-formed value. -/
theorem loads_dumps (v : JValue) (hwf : wfJ v = true) : loads (dumps v) = some v := by
  have hsw : skipWs (dumps v) = dumps v := by simpa using skipWs_dumps v []
  have hrt := rt_val v ((dumps v).length + 1) [] hwf
    (Nat.lt_succ_of_le (jsize_le_dumps v)) rfl
  rw [List.append_nil] at hrt
  simp [loads, hsw, hrt, skipWs]

/-! ### Everything `dumps` emits is ASCII -/

theorem hexDigitCode_ascii (d : Nat) (h : d < 16) : hexDigitCode d < 128 := by
  simp only [hexDigitCode]
  split <;> omega

theorem hexQuad_ascii (n : Nat) : ∀ x ∈ hexQuad n, x < 128 := by
  intro x hx
  simp only [hexQuad, List.mem_cons, List.not_mem_nil, or_false] at hx
  rcases hx with h | h | h | h <;>
    (subst h; exact hexDigitCode_ascii _ (Nat.mod_lt _ (by omega)))

theorem escapeCode_ascii (c : Nat) : ∀ x ∈ escapeCode c, x < 128 := by
  intro x hx
  unfold escapeCode at hx
  split_ifs at hx with h1 h2 h3 h4 h5 h6 h7 h8 h9
  · simp at hx; omega
  · simp at hx; omega
  · simp at hx; omega
  · simp at hx; omega
  · simp at hx; omega
  · simp at hx; omega
  · simp at hx; omega
  · simp at hx; omega
  · simp only [List.mem_cons] at hx
    rcases hx with h | h | h
    · omega
    · omega
    · exact hexQuad_ascii _ x h
  · simp only [List.mem_append, List.mem_cons] at hx
    rcases hx with (h | h | h) | (h | h | h)
    · omega
    · omega
    · exact hexQuad_ascii _ x h
    · omega
    · omega
    · exact hexQuad_ascii _ x h

theorem escapeString_ascii : ∀ s : List Nat, ∀ x ∈ escapeString s, x < 128 := by
  intro s
  induction s with
  | nil => intro x hx; simp [escapeString] at hx
  | cons c cs ih =>
    intro x hx
    simp only [escapeString, List.mem_append] at hx
    rcases hx with h | h
    · exact escapeCode_ascii c x h
    · exact ih x h

theorem natToDec_ascii (n : Nat) : ∀ x ∈ natToDec n, x < 128 := by
  intro x hx
  have := natToDec_digits n x hx
  simp [isDigitCode] at this
  omega

theorem intToDec_ascii (i : Int) : ∀ x ∈ intToDec i, x < 128 := by
  intro x hx
  unfold intToDec at hx
  split at hx
  · simp only [List.mem_cons] at hx
    rcases hx with h | h
    · omega
    · exact natToDec_ascii _ x h
  · exact natToDec_ascii _ x hx

mutual
/-- With `ensure_ascii=True` the rendered text is pure ASCII. -/
theorem dumps_ascii : ∀ v : JValue, ∀ x ∈ dumps v, x < 128
  | .null => by decide
  | .bool true => by decide
  | .bool false => by decide
  | .num i => intToDec_ascii i
  | .str s => by
    intro x hx
    simp only [dumps, List.mem_cons, List.mem_append, List.not_mem_nil, or_false] at hx
    rcases hx with h | h | h
    · omega
    · exact escapeString_ascii s x h
    · omega
  | .arr xs => by
    intro x hx
    simp only [dumps, List.mem_cons, List.mem_append, List.not_mem_nil, or_false] at hx
    rcases hx with h | h | h
    · omega
    · exact dumpsElems_ascii xs x h
    · omega
  | .obj kvs => by
    intro x hx
    simp only [dumps, List.mem_cons, List.mem_append, List.not_mem_nil, or_false] at hx
    rcases hx with h | h | h
    · omega
    · exact dumpsMembers_ascii kvs x h
    · omega
  termination_by v => sizeOf v

theorem dumpsElems_ascii : ∀ xs : List JValue, ∀ x ∈ dumpsElems xs, x < 128
  | [] => by intro x hx; simp [dumpsElems] at hx
  | [y] => by
    intro x hx
    exact dumps_ascii y x hx
  | y :: z :: t => by
    intro x hx
    simp only [dumpsElems, List.mem_append, List.mem_cons] at hx
    rcases hx with h | h | h | h
    · exact dumps_ascii y x h
    · omega
    · omega
    · exact dumpsElems_ascii (z :: t) x h
  termination_by xs => sizeOf xs

theorem dumpsMembers_ascii : ∀ kvs : List (List Nat × JValue), ∀ x ∈ dumpsMembers kvs, x < 128
  | [] => by intro x hx; simp [dumpsMembers] at hx
  | [(k, v)] => by
    intro x hx
    simp only [dumpsMembers, List.mem_cons, List.mem_append] at hx
    rcases hx with h | h | h | h | h | h
    · omega
    · exact escapeString_ascii k x h
    · omega
    · omega
    · omega
    · exact dumps_ascii v x h
  | (k, v) :: m :: t => by
    intro x hx
    simp only [dumpsMembers, List.mem_cons, List.mem_append] at hx
    rcases hx with h | h | h | h | h | h | h | h | h
    · omega
    · exact escapeString_ascii k x h
    · omega
    · omega
    · omega
    · exact dumps_ascii v x h
    · omega
    · omega
    · exact dumpsMembers_ascii (m :: t) x h
  termination_by kvs => sizeOf kvs
end

/-! ### Framing round trip -/

theorem take4_pack4 (n : Nat) (m : List Nat) : (pack4 n ++ m).take 4 = pack4 n := rfl

theorem drop4_pack4 (n : Nat) (m : List Nat) : (pack4 n ++ m).drop 4 = m := rfl

/-- `send` writes exactly the packed length then the payload. -/
theorem encodeMessage_eq (v : JValue) (hlen : (dumps v).length < 4294967296) :
    encodeMessage v = some (pack4 (dumps v).length ++ dumps v) := by
  have he : utf8Encode (dumps v) = some (dumps v) := utf8Encode_ascii _ (dumps_ascii v)
  simp [encodeMessage, he, sendFrame, hlen]

/-- The read path inverts the frame layout produced by `send`. -/
theorem decodeMessage_frame (v : JValue) (hwf : wfJ v = true)
    (hlen : (dumps v).length < 4294967296) :
    decodeMessage (pack4 (dumps v).length ++ dumps v) = some v := by
  have hlen4 : (pack4 (dumps v).length ++ dumps v).length = 4 + (dumps v).length := by
    simp [pack4]
    omega
  have hd : utf8Decode (dumps v) = some (dumps v) := utf8Decode_ascii _ (dumps_ascii v)
  simp only [decodeMessage, hlen4, take4_pack4, drop4_pack4,
    unpack4_pack4 _ hlen, List.take_length, hd, loads_dumps v hwf]
  rw [if_neg (by omega), if_neg (by omega)]

/-! ### The read loop -/

theorem drainFuel_nil (fuel : Nat) (st : ConnState) :
    drainFuel fuel st [] = ⟨st, [], [], none⟩ := by
  cases fuel <;> rfl

/-- Unfold one iteration when the step raises no exception. -/
theorem drainFuel_step_ok (fuel : Nat) (st st2 : ConnState) (buf rest : List Nat)
    (evs : List ConnEvent) (hne : buf ≠ [])
    (h : stepOnce st buf = ⟨st2, rest, evs, none⟩) :
    drainFuel (fuel + 1) st buf =
      ⟨(drainFuel fuel st2 rest).state, (drainFuel fuel st2 rest).rest,
        evs ++ (drainFuel fuel st2 rest).events, (drainFuel fuel st2 rest).exn⟩ := by
  rcases buf with _ | ⟨b, bs⟩
  · exact absurd rfl hne
  · simp only [drainFuel]
    rw [h]

/-- Unfold one iteration when the step raises. -/
theorem drainFuel_step_exn (fuel : Nat) (st st2 : ConnState) (buf rest : List Nat)
    (evs : List ConnEvent) (e : JExn) (hne : buf ≠ [])
    (h : stepOnce st buf = ⟨st2, rest, evs, some e⟩) :
    drainFuel (fuel + 1) st buf = ⟨st2, rest, evs, some e⟩ := by
  rcases buf with _ | ⟨b, bs⟩
  · exact absurd rfl hne
  · simp only [drainFuel]
    rw [h]

/-- The loop body decreases the measure whenever it returns normally:
the loop of `_on_ready_read` cannot run forever on a finite buffer. -/
theorem stepOnce_measure (st : ConnState) (buf : List Nat) (hne : buf ≠ [])
    (hok : (stepOnce st buf).exn = none) :
    drainMeasure (stepOnce st buf).state (stepOnce st buf).rest < drainMeasure st buf := by
  rcases buf with _ | ⟨b, bs⟩
  · exact absurd rfl hne
  by_cases hc : st.headerComplete = false
  · simp only [stepOnce, if_pos hc, drainMeasure]
    split
    · simp only [hc]
      simp [List.length_drop]
      omega
    · simp only [hc]
      simp [List.length_drop]
      omega
  · simp only [stepOnce, if_neg hc, drainMeasure] at hok ⊢
    have hc2 : st.headerComplete = true := by
      cases h : st.headerComplete
      · exact absurd h hc
      · rfl
    by_cases htr : st.toRead - ((b :: bs).take st.toRead).length = 0
    · simp only [if_pos htr] at hok ⊢
      rcases h1 : utf8Decode (st.dataBuf ++ (b :: bs).take st.toRead) with _ | codes
      · simp [h1] at hok
      rcases h2 : loads codes with _ | obj
      · simp [h1, h2] at hok
      rcases h3 : dictGet obj (txt "results") with e | results
      · simp [h1, h2, h3] at hok
      rcases h4 : dictGet obj (txt "status") with e | status
      · simp [h1, h2, h3, h4] at hok
      simp only [h1, h2, h3, h4]
      simp only [hc2]
      simp [List.length_drop, List.length_take]
      omega
    · simp only [if_neg htr] at hok ⊢
      simp only [hc2]
      have hlen : ((b :: bs).take st.toRead).length = min st.toRead (b :: bs).length := by
        simp [List.length_take]
      have hgt : st.toRead > (b :: bs).length := by
        rcases Nat.lt_or_ge st.toRead ((b :: bs).length + 1) with h | h
        · exfalso
          apply htr
          rw [hlen]
          omega
        · omega
      simp [List.length_drop]
      omega

/-- The result does not depend on the fuel once it covers the measure. -/
theorem drainFuel_congr : ∀ (f g : Nat) (st : ConnState) (buf : List Nat),
    drainMeasure st buf < f → drainMeasure st buf < g →
    drainFuel f st buf = drainFuel g st buf := by
  intro f
  induction f with
  | zero =>
    intro g st buf hf _
    omega
  | succ f ih =>
    intro g st buf hf hg
    obtain ⟨g1, rfl⟩ : ∃ g1, g = g1 + 1 := ⟨g - 1, by omega⟩
    rcases buf with _ | ⟨b, bs⟩
    · rw [drainFuel_nil, drainFuel_nil]
    rcases hstep : stepOnce st (b :: bs) with ⟨st2, rest, evs, exn⟩
    rcases exn with _ | e
    · have hm := stepOnce_measure st (b :: bs) (by simp) (by rw [hstep])
      rw [hstep] at hm
      simp only at hm
      rw [drainFuel_step_ok f st st2 (b :: bs) rest evs (by simp) hstep,
        drainFuel_step_ok g1 st st2 (b :: bs) rest evs (by simp) hstep,
        ih g1 st2 rest (by omega) (by omega)]
    · rw [drainFuel_step_exn f st st2 (b :: bs) rest evs e (by simp) hstep,
        drainFuel_step_exn g1 st st2 (b :: bs) rest evs e (by simp) hstep]

/-- The first iteration on a fully buffered frame: the four header
bytes arrive at once, so `_read_header` completes the header. -/
theorem stepOnce_header (m : List Nat) (l : Nat) (hl : l < 4294967296) :
    stepOnce initConnState (pack4 l ++ m) = ⟨⟨true, [], l, []⟩, m, [], none⟩ := by
  simp [stepOnce, initConnState, take4_pack4, drop4_pack4, unpack4_pack4 l hl, pack4_length]

/-- The second iteration: the whole payload is buffered, so
`_read_payload` completes, decodes, calls back and signals finished. -/
theorem stepOnce_complete (obj s r : JValue) (hwf : wfJ obj = true)
    (hr : dictGet obj (txt "results") = Except.ok r)
    (hs : dictGet obj (txt "status") = Except.ok s) :
    stepOnce ⟨true, [], (dumps obj).length, []⟩ (dumps obj)
      = ⟨initConnState, [], [ConnEvent.callback s r, ConnEvent.finishedSig], none⟩ := by
  have hd : utf8Decode (dumps obj) = some (dumps obj) := utf8Decode_ascii _ (dumps_ascii obj)
  have hld : loads (dumps obj) = some obj := loads_dumps obj hwf
  simp [stepOnce, List.take_length, List.drop_length, hd, hld, hr, hs, initConnState]

/-- Draining a complete buffered frame emits the callback then the
finished signal and returns the connection to its initial state. -/
theorem drain_message (obj s r : JValue) (hwf : wfJ obj = true)
    (hlen : (dumps obj).length < 4294967296)
    (hr : dictGet obj (txt "results") = Except.ok r)
    (hs : dictGet obj (txt "status") = Except.ok s) :
    drain initConnState (pack4 (dumps obj).length ++ dumps obj)
      = ⟨initConnState, [], [ConnEvent.callback s r, ConnEvent.finishedSig], none⟩ := by
  have h1 := stepOnce_header (dumps obj) (dumps obj).length hlen
  have h2 := stepOnce_complete obj s r hwf hr hs
  have hm : dumps obj ≠ [] := by
    obtain ⟨c, t, hct, _, _, _, _⟩ := dumps_head obj
    rw [hct]
    simp
  have hne : pack4 (dumps obj).length ++ dumps obj ≠ [] := by simp [pack4]
  obtain ⟨F, hF⟩ :
      ∃ F, 2 * (pack4 (dumps obj).length ++ dumps obj).length + 2 = (F + 1) + 1 :=
    ⟨2 * (pack4 (dumps obj).length ++ dumps obj).length, by omega⟩
  rw [drain, hF, drainFuel_step_ok (F + 1) _ _ _ _ _ hne h1,
    drainFuel_step_ok F _ _ _ _ _ hm h2, drainFuel_nil]
  simp

theorem runTwo_indep_aux : ∀ (sched : List (Bool × List Nat)) (p : ConnRun × ConnRun),
    sched.foldl
      (fun p s => if s.1 then (feedChunk p.1 s.2, p.2) else (p.1, feedChunk p.2 s.2)) p
      = ((chunksFor true sched).foldl feedChunk p.1,
         (chunksFor false sched).foldl feedChunk p.2) := by
  intro sched
  induction sched with
  | nil => intro p; simp [chunksFor]
  | cons hd t ih =>
    intro p
    rcases hd with ⟨b, chunk⟩
    cases b
    · simp [chunksFor, List.filter_cons] at ih ⊢
      simp [ih]
    · simp [chunksFor, List.filter_cons] at ih ⊢
      simp [ih]

/-- One event loop serving two connections delivers each chunk only to
its own connection. -/
theorem runTwo_indep (sched : List (Bool × List Nat)) :
    runTwo sched = (runConn (chunksFor true sched), runConn (chunksFor false sched)) :=
  runTwo_indep_aux sched (initConnRun, initConnRun)

/-- A complete frame delivered in one chunk to a fresh connection. -/
theorem runConn_message (obj s r : JValue) (hwf : wfJ obj = true)
    (hlen : (dumps obj).length < 4294967296)
    (hr : dictGet obj (txt "results") = Except.ok r)
    (hs : dictGet obj (txt "status") = Except.ok s) :
    runConn [pack4 (dumps obj).length ++ dumps obj]
      = ⟨initConnState, [], [ConnEvent.callback s r, ConnEvent.finishedSig], []⟩ := by
  have h := drain_message obj s r hwf hlen hr hs
  simp [runConn, feedChunk, initConnRun, h]

/-! ### The claims -/

/-- Claim C1: the spec says every way of splitting an encoded message
into successive non-empty chunks yields the same decoded result as one
whole-message delivery, the 4-byte header split included. The code
refutes this: `_read_header` runs `self._header_buf += self.read(4)`,
asking for four fresh bytes however many are already buffered, so after
a 2-byte header fragment the buffer jumps to six bytes and never has
length exactly 4. This theorem exhibits the divergence: the whole
frame in one chunk emits the callback and the finished signal (two
events), while the same bytes split after the second header byte emit
nothing - no event, no exception, every byte consumed. -/
theorem split_header_loses_message :
    (runConn [sampleMsg]).events.length = 2 ∧
    sampleMsg.take 2 ++ sampleMsg.drop 2 = sampleMsg ∧
    sampleMsg.take 2 ≠ [] ∧
    sampleMsg.drop 2 ≠ [] ∧
    (runConn [sampleMsg.take 2, sampleMsg.drop 2]).events.length = 0 ∧
    (runConn [sampleMsg.take 2, sampleMsg.drop 2]).exns = [] ∧
    (runConn [sampleMsg.take 2, sampleMsg.drop 2]).leftover = [] :=
  ⟨rfl, List.take_append_drop 2 sampleMsg, by decide, by decide, rfl, rfl, rfl⟩

/-- Claim C2, corrected. The spec says a zero-length payload completes
immediately: decode, callback, finished, with no further bytes needed.
In the code the `while self.bytesAvailable():` loop exits right after
the header is read, because reading the four header bytes exhausted the
buffer; the connection only marks the header complete with zero bytes
to read. `_read_payload` runs only when at least one more byte arrives,
and then `json.loads` of the empty accumulated payload raises a decode
error, so the callback is never invoked. -/
theorem zero_length_payload_stalls (c : List Nat) (hne : c ≠ []) :
    (runConn [[0, 0, 0, 0]]).events = [] ∧
    (runConn [[0, 0, 0, 0]]).state = ⟨true, [], 0, []⟩ ∧
    (stepOnce ⟨true, [], 0, []⟩ c).exn = some JExn.jsonDecodeError ∧
    (stepOnce ⟨true, [], 0, []⟩ c).events = [] := by
  refine ⟨rfl, rfl, ?_, ?_⟩ <;>
    simp [stepOnce, show utf8Decode [] = some [] from rfl,
      show loads ([] : List Nat) = none from rfl]

/-- Witness for C2 at the next chunk `[32]`. -/
theorem zero_length_payload_stalls_witness :
    ([32] : List Nat) ≠ [] ∧
    ((runConn [[0, 0, 0, 0]]).events = [] ∧
      (runConn [[0, 0, 0, 0]]).state = ⟨true, [], 0, []⟩ ∧
      (stepOnce ⟨true, [], 0, []⟩ [32]).exn = some JExn.jsonDecodeError ∧
      (stepOnce ⟨true, [], 0, []⟩ [32]).events = []) :=
  ⟨by decide, zero_length_payload_stalls [32] (by decide)⟩

/-- Counterexample to C2 as written: the zero-header chunk alone emits
no callback and no finished signal; the handler merely records a
complete header with nothing to read. -/
theorem zero_header_no_completion :
    (runConn [[0, 0, 0, 0]]).events = [] ∧
    (runConn [[0, 0, 0, 0]]).state = ⟨true, [], 0, []⟩ ∧
    (runConn [[0, 0, 0, 0]]).exns = [] :=
  ⟨rfl, rfl, rfl⟩

/-- Claim C3: serializing any well-formed JSON value (empty objects,
empty arrays and non-ASCII strings included) and running the decode
path on the frame returns the value unchanged. -/
theorem encode_decode_roundtrip (v : JValue) (hwf : wfJ v = true)
    (hlen : (dumps v).length < 4294967296) :
    ∃ bs, encodeMessage v = some bs ∧ decodeMessage bs = some v :=
  ⟨_, encodeMessage_eq v hlen, decodeMessage_frame v hwf hlen⟩

/-- Witness for C3 at a value holding an empty object, an empty array
and a string with the non-ASCII character 233. -/
theorem encode_decode_roundtrip_witness :
    wfJ (JValue.arr [.obj [], .arr [], .str [233]]) = true ∧
    (dumps (JValue.arr [.obj [], .arr [], .str [233]])).length < 4294967296 ∧
    ∃ bs, encodeMessage (JValue.arr [.obj [], .arr [], .str [233]]) = some bs ∧
      decodeMessage bs = some (JValue.arr [.obj [], .arr [], .str [233]]) :=
  ⟨by decide, by decide,
    encode_decode_roundtrip (JValue.arr [.obj [], .arr [], .str [233]])
      (by decide) (by decide)⟩

/-- Claim C4: the encoder emits exactly the 4-byte unsigned
little-endian length followed by the payload, and the decoder reads the
first four bytes back with the same format. -/
theorem frame_header_format (msg : List Nat) (h : msg.length < 4294967296) :
    sendFrame msg = some (pack4 msg.length ++ msg) ∧
    (pack4 msg.length).length = 4 ∧
    unpack4 ((pack4 msg.length ++ msg).take 4) = msg.length ∧
    (pack4 msg.length ++ msg).drop 4 = msg := by
  refine ⟨by simp [sendFrame, h], rfl, ?_, rfl⟩
  rw [take4_pack4]
  exact unpack4_pack4 _ h

/-- Witness for C4 at the payload `[7, 8, 9]`. -/
theorem frame_header_format_witness :
    ([7, 8, 9] : List Nat).length < 4294967296 ∧
    (sendFrame [7, 8, 9] = some (pack4 ([7, 8, 9] : List Nat).length ++ [7, 8, 9]) ∧
      (pack4 ([7, 8, 9] : List Nat).length).length = 4 ∧
      unpack4 ((pack4 ([7, 8, 9] : List Nat).length ++ [7, 8, 9]).take 4)
        = ([7, 8, 9] : List Nat).length ∧
      (pack4 ([7, 8, 9] : List Nat).length ++ [7, 8, 9]).drop 4 = [7, 8, 9]) :=
  ⟨by decide, frame_header_format [7, 8, 9] (by decide)⟩

/-- The message table lookup in `_on_error` always succeeds after the
normalization to the `-1` sentinel. -/
theorem socketErrorStrings_normalize_isSome (e : Int) :
    ∃ m, socketErrorStrings (normalizeSocketError e) = some m := by
  unfold normalizeSocketError
  rcases hh : socketErrorStrings e with _ | m
  · simp [hh]
    exact ⟨_, rfl⟩
  · simp [hh]

/-- Claim C5: on a transport error the connect step is retried after
100 ms exactly when the error is code 0, connection refused; every
other code is only reported, with no retry. -/
theorem socket_error_retry_iff_refused (e : Int) :
    ∃ msg retry, onSocketError e = some (msg, retry) ∧
      (retry = some 100 ↔ e = 0) ∧ (e ≠ 0 → retry = none) := by
  obtain ⟨m, hm⟩ := socketErrorStrings_normalize_isSome e
  refine ⟨m, if e = 0 then some 100 else none, ?_, ?_, ?_⟩
  · simp only [onSocketError, hm]
  · constructor
    · intro hr
      by_contra hne
      rw [if_neg hne] at hr
      cases hr
    · intro h0
      simp [h0]
  · intro hne
    simp [hne]

/-- Claim C6: a completed exchange invokes the callback exactly once,
with exactly the decoded status and results of the envelope, and emits
the finished signal only after the callback; with two connections on
one event loop, every chunk is drained by its own connection, so each
callback sees the value decoded on its own socket. -/
theorem callback_exactly_once (obj s r : JValue) (hwf : wfJ obj = true)
    (hlen : (dumps obj).length < 4294967296)
    (hr : dictGet obj (txt "results") = Except.ok r)
    (hs : dictGet obj (txt "status") = Except.ok s)
    (sched : List (Bool × List Nat)) :
    (runConn [pack4 (dumps obj).length ++ dumps obj]).events
        = [ConnEvent.callback s r, ConnEvent.finishedSig] ∧
    runTwo sched = (runConn (chunksFor true sched), runConn (chunksFor false sched)) := by
  refine ⟨?_, runTwo_indep sched⟩
  rw [runConn_message obj s r hwf hlen hr hs]

/-- Witness for C6 at the sample envelope and a two-entry schedule. -/
theorem callback_exactly_once_witness :
    wfJ sampleResp = true ∧
    (dumps sampleResp).length < 4294967296 ∧
    dictGet sampleResp (txt "results") = Except.ok JValue.null ∧
    dictGet sampleResp (txt "status") = Except.ok (JValue.bool true) ∧
    ((runConn [pack4 (dumps sampleResp).length ++ dumps sampleResp]).events
        = [ConnEvent.callback (JValue.bool true) JValue.null, ConnEvent.finishedSig] ∧
      runTwo [(true, [1]), (false, [2])]
        = (runConn (chunksFor true [(true, [1]), (false, [2])]),
           runConn (chunksFor false [(true, [1]), (false, [2])]))) :=
  ⟨by decide, by decide, rfl, rfl,
    callback_exactly_once sampleResp (JValue.bool true) JValue.null
      (by decide) (by decide) rfl rfl [(true, [1]), (false, [2])]⟩

/-- Claim C7: when the process exits while considered running, the
supervisor clears its running flag (it is no longer RUNNING), records
the exit code, and the notification hands the Backend Manager exactly
that exit code. -/
theorem process_crash_updates_state (st : ServerProcessState) (code : Int)
    (h : st.running = true) :
    (onProcessFinished st code).1.running = false ∧
    (onProcessFinished st code).2 = code ∧
    backendManagerSeesExit (onProcessFinished st code) = code :=
  ⟨rfl, rfl, rfl⟩

/-- Witness for C7 at a running process exiting with code 9. -/
theorem process_crash_updates_state_witness :
    (⟨true, false⟩ : ServerProcessState).running = true ∧
    ((onProcessFinished ⟨true, false⟩ 9).1.running = false ∧
      (onProcessFinished ⟨true, false⟩ 9).2 = 9 ∧
      backendManagerSeesExit (onProcessFinished ⟨true, false⟩ 9) = 9) :=
  ⟨rfl, process_crash_updates_state ⟨true, false⟩ 9 rfl⟩

/-- Claim C8: the spec says every line the worker writes reaches the
log with no output text lost. The code refutes this: the handlers
truncate each decoded chunk at its last newline with
`output[:output.rfind(chr(10))]`, so the text after the last newline of
a chunk is discarded, not buffered. On the chunk `a\nbc` only the line
`a` is logged and `bc` is lost; on the newline-free chunk `abc` the
slice even corrupts it to `ab`. The trailing-newline chunk `a\nb\n`
shows the intended benign case. -/
theorem process_output_truncation_loses_lines :
    processOutputLines (txt "a\nbc") = [txt "a"] ∧
    processOutputLines (txt "abc") = [txt "ab"] ∧
    processOutputLines (txt "a\nb\n") = [txt "a", txt "b"] :=
  ⟨rfl, rfl, rfl⟩

/-- Claim C9: the socket error handler is total: for every integer
code, known or not, the normalization maps unknown codes to the `-1`
sentinel (known ones stay themselves), the table lookup succeeds, and
the handler returns a logged message. -/
theorem socket_error_handler_total (e : Int) :
    (onSocketError e).isSome = true ∧
    (socketErrorStrings (normalizeSocketError e)).isSome = true ∧
    (normalizeSocketError e = e ∨ normalizeSocketError e = -1) := by
  obtain ⟨m, hm⟩ := socketErrorStrings_normalize_isSome e
  refine ⟨?_, by simp [hm], ?_⟩
  · simp [onSocketError, hm]
  · unfold normalizeSocketError
    split
    · left
      rfl
    · right
      rfl

/-- Claim C10: the `_on_ready_read` loop terminates on every finite
buffer: once the fuel covers the measure `drainMeasure` the drain
result no longer depends on it, because every normally returning
iteration strictly decreases the measure (and an exception ends the
loop at once). -/
theorem ready_read_loop_terminates (st : ConnState) (buf : List Nat) (f : Nat)
    (hf : drainMeasure st buf < f) :
    drainFuel f st buf = drain st buf ∧
    (buf ≠ [] → (stepOnce st buf).exn = none →
      drainMeasure (stepOnce st buf).state (stepOnce st buf).rest < drainMeasure st buf) := by
  constructor
  · exact drainFuel_congr f (2 * buf.length + 2) st buf hf
      (by unfold drainMeasure; split <;> omega)
  · intro hne hok
    exact stepOnce_measure st buf hne hok

/-- Witness for C10 at a fresh connection holding one buffered byte. -/
theorem ready_read_loop_terminates_witness :
    drainMeasure initConnState [0] < 3 ∧
    (drainFuel 3 initConnState [0] = drain initConnState [0] ∧
      (([0] : List Nat) ≠ [] → (stepOnce initConnState [0]).exn = none →
        drainMeasure (stepOnce initConnState [0]).state (stepOnce initConnState [0]).rest
          < drainMeasure initConnState [0])) :=
  ⟨by decide, ready_read_loop_terminates initConnState [0] 3 (by decide)⟩
